import Mathlib

/-! fullerite: collector registry, collector base state and config coercion

A shallow embedding of

* `src/fullerite/config/config.go` (`GetAsInt`, `GetAsFloat`),
* `src/fullerite/collector/collector.go` (`RegisterCollector`, `New`, `baseCollector`,
  `configureCommonParams`, `ContainsBlacklistedDimension`),
* `src/fullerite/internal_server/internal_metrics_server.go` (`buildResponse`),

together with the properties stated for them.

Conventions of the embedding:

* Go `int` is the 64-bit signed integer; values are carried as `Int`.
* Go maps with string keys are association lists; a lookup returns the first binding of a key and
  a `nil` map is the empty list unless the code distinguishes the two.
* Go strings are Lean strings; splitting on the one-byte separator `" "` is splitting on the
  character `' '`.
* Log output has no effect on any returned value and is left out; the log entry handed to a
  factory is kept.
-/

set_option autoImplicit false

namespace fullerite

/-! ## Dynamically typed values (`interface{}`) -/

/-- A Go `float64`: a finite value `mant * 2 ^ exp`, an infinity or a NaN. -/
inductive Float64 where
  | finite (mant : Int) (exp : Int)
  | inf (neg : Bool)
  | nan
  deriving Repr, DecidableEq

/-- The dynamic values a configuration entry (`interface{}`) can hold. -/
inductive Value where
  | nil
  | bool (b : Bool)
  | str (s : String)
  | int (n : Int)
  | int8 (n : Int)
  | int16 (n : Int)
  | int32 (n : Int)
  | int64 (n : Int)
  | uint (n : Nat)
  | uint8 (n : Nat)
  | uint16 (n : Nat)
  | uint32 (n : Nat)
  | uint64 (n : Nat)
  | float32 (f : Float64)
  | float64 (f : Float64)
  | strSlice (xs : List String)
  | slice (xs : List Value)
  | strMap (kv : List (String × String))
  | map (kv : List (String × Value))

/-! ## `strconv.ParseInt(s, 10, 64)` -/

namespace strconv

/-- The two errors of package `strconv`. -/
inductive NumError where
  | ErrSyntax
  | ErrRange
  deriving Repr, DecidableEq

/-- Largest `uint64`. -/
def maxUint64 : Nat := 2 ^ 64 - 1

/-- The digit loop of `ParseUint` for base 10 and bit size 64: `n` is the accumulator.
The sum `n*10 + d` is taken modulo `2^64`, and the wrap is detected as Go does. -/
def parseUintLoop : List Char → Nat → Except NumError Nat
  | [], n => .ok n
  | c :: cs, n =>
    if '0' ≤ c ∧ c ≤ '9' then
      let d := c.toNat - '0'.toNat
      if n ≥ maxUint64 / 10 + 1 then .error .ErrRange
      else
        let n10 := n * 10
        let n1 := (n10 + d) % 2 ^ 64
        if n1 < n10 ∨ n1 > maxUint64 then .error .ErrRange
        else parseUintLoop cs n1
    else .error .ErrSyntax

/-- `ParseUint(s, 10, 64)` on the characters of `s`. -/
def ParseUint (s : List Char) : Except NumError Nat :=
  if s = [] then .error .ErrSyntax else parseUintLoop s 0

/-- `ParseInt(s, 10, 64)`: an optional sign, then `ParseUint`, then the signed range check.
A range error of `ParseUint` carries the value `maxUint64` into the range check. -/
def ParseInt (s : String) : Except NumError Int :=
  match s.data with
  | [] => .error .ErrSyntax
  | c :: cs =>
    let neg := c = '-'
    let rest := if c = '+' ∨ c = '-' then cs else c :: cs
    match ParseUint rest with
    | .error .ErrSyntax => .error .ErrSyntax
    | r =>
      let un : Nat := match r with
        | .ok u => u
        | .error _ => maxUint64
      let cutoff : Nat := 2 ^ 63
      if ¬ neg ∧ un ≥ cutoff then .error .ErrRange
      else if neg ∧ un > cutoff then .error .ErrRange
      else match r with
        | .error e => .error e
        | .ok _ => .ok (if neg then -(un : Int) else (un : Int))

end strconv

/-! ## Package `config` -/

namespace config

/-- The truncation toward zero of the finite value `mant * 2 ^ exp`. -/
def truncFinite (mant exp : Int) : Int :=
  if 0 ≤ exp then mant * 2 ^ exp.toNat else Int.tdiv mant (2 ^ (-exp).toNat)

/-- The conversion `int(f)` of a `float64`. Go leaves the result implementation-dependent when
the value is not representable (NaN, infinities, magnitude outside the 64-bit range); that
result is supplied by `outOfRange`. -/
def float64ToInt (outOfRange : Float64 → Int) (f : Float64) : Int :=
  match f with
  | .finite mant exp =>
    let t := truncFinite mant exp
    if -(2 ^ 63 : Int) ≤ t ∧ t < 2 ^ 63 then t else outOfRange f
  | _ => outOfRange f

/-- `GetAsInt` parses a string/float to an int or returns the int if int is passed in. -/
def GetAsInt (outOfRange : Float64 → Int) (value : Value) (defaultValue : Int) : Int :=
  match value with
  | .str s =>
    match strconv.ParseInt s with
    | .ok fromString => fromString
    | .error _ => defaultValue
  | .int n => n
  | .int32 n => n
  | .int64 n => n
  | .float64 f => float64ToInt outOfRange f
  | _ => defaultValue

/-- The strings of a sequence whose elements are all strings. -/
def stringsOf : List Value → Option (List String)
  | [] => some []
  | .str s :: rest => (stringsOf rest).map (fun ss => s :: ss)
  | _ :: _ => none

/-- The pairs of a mapping whose values are all strings. -/
def stringPairsOf : List (String × Value) → Option (List (String × String))
  | [] => some []
  | (k, .str s) :: rest => (stringPairsOf rest).map (fun ps => (k, s) :: ps)
  | _ :: _ => none

/-- Modelled from the spec: `config.GetAsSlice` is called by `configureCommonParams` but its
definition is not part of the sources. The spec: it extracts an ordered sequence of strings from a
dynamically-typed value, yielding an empty result (never an error) when the shape does not
match. A sequence with an element that is not a string does not have the shape. -/
def GetAsSlice (value : Value) : List String :=
  match value with
  | .strSlice xs => xs
  | .slice xs =>
    match stringsOf xs with
    | some ss => ss
    | none => []
  | _ => []

/-- Modelled from the spec: `config.GetAsMap` is called by `configureCommonParams` but its
definition is not part of the sources. The spec: it extracts a string-keyed mapping from a
dynamically-typed value, yielding an empty result (never an error) when the shape does not
match. The collector stores the result as a string-to-string mapping. -/
def GetAsMap (value : Value) : List (String × String) :=
  match value with
  | .strMap kv => kv
  | .map kv =>
    match stringPairsOf kv with
    | some ss => ss
    | none => []
  | _ => []

end config

/-! ## Package `strings` -/

namespace strings

/-- The pieces of a character list between occurrences of `sep`; there is always one piece. -/
def splitChars (sep : Char) : List Char → List (List Char)
  | [] => [[]]
  | c :: cs =>
    if c = sep then [] :: splitChars sep cs
    else
      match splitChars sep cs with
      | [] => [[c]]
      | p :: ps => (c :: p) :: ps

/-- `Split(s, sep)` for a separator `sep` of one character. -/
def Split (s : String) (sep : Char) : List String :=
  (splitChars sep s.data).map String.mk

end strings

/-! ## Package `regexp` -/

/-- A regular-expression engine: what `regexp.Compile` accepts and what a compiled expression
matches. Package `regexp` is outside the repository; the collector code is embedded over any
engine. -/
structure RegexpEngine where
  /-- Compiled expressions. -/
  Regexp : Type
  /-- `regexp.Compile`: `none` is a compile error. -/
  Compile : String → Option Regexp
  /-- `(*Regexp).MatchString`. -/
  reMatchString : Regexp → String → Bool

namespace RegexpEngine

/-- `regexp.MatchString(pattern, s)`: the pair `(matched, err != nil)`. A pattern that does not
compile gives `(false, true)`. -/
def MatchString (R : RegexpEngine) (pattern s : String) : Bool × Bool :=
  match R.Compile pattern with
  | none => (false, true)
  | some re => (R.reMatchString re s, false)

end RegexpEngine

/-- Characters with a special meaning in a regular expression. -/
def regexMeta : List Char :=
  ['\\', '.', '+', '*', '?', '(', ')', '|', '[', ']', '{', '}', '^', '$']

/-- A small engine for concrete evaluations: it accepts the patterns `lit` and `^lit`, where `lit`
has no special character, and rejects every other pattern. `lit` matches a string that contains
it, `^lit` a string that starts with it. On these patterns, and on the pattern `(`, which it
rejects, it does what Go's `regexp` does. -/
def literalEngine : RegexpEngine where
  Regexp := Bool × List Char
  Compile := fun pattern =>
    match pattern.data with
    | '^' :: lit => if lit.all (fun c => !regexMeta.contains c) then some (true, lit) else none
    | lit => if lit.all (fun c => !regexMeta.contains c) then some (false, lit) else none
  reMatchString := fun re s =>
    if re.1 then re.2.isPrefixOf s.data else s.data.tails.any (fun t => re.2.isPrefixOf t)

/-! ## Package `collector` -/

namespace collector

/-- `DefaultCollectionInterval` the interval to collect on unless overridden by a collectors
config. -/
def DefaultCollectionInterval : Int := 10

/-- A channel `chan metric.Metric`, by identity. -/
abbrev Chan := Nat

/-- A `*logrus.Entry`: its fields. -/
structure LogEntry where
  fields : List (String × String)
  deriving Repr, DecidableEq

/-- `WithFields` on a log entry. -/
def LogEntry.WithFields (e : LogEntry) (fs : List (String × String)) : LogEntry :=
  ⟨e.fields ++ fs⟩

/-- The package logger `defaultLog`. -/
def defaultLog : LogEntry := ⟨[("app", "fullerite"), ("pkg", "collector")]⟩

/-- The struct `baseCollector`; the field `prefix` is written `prefix_`. -/
structure baseCollector where
  channel : Chan
  name : String
  interval : Int
  collectorType : String
  canonicalName : String
  prefix_ : String
  blacklist : List String
  dimensionsBlacklist : List (String × String)
  log : LogEntry
  deriving Repr, DecidableEq

namespace baseCollector

/-- `configureCommonParams`: merges the recognised keys of `configMap` into the collector. -/
def configureCommonParams (outOfRange : Float64 → Int) (col : baseCollector)
    (configMap : List (String × Value)) : baseCollector :=
  let col :=
    match configMap.lookup "interval" with
    | some interval =>
      { col with interval := config.GetAsInt outOfRange interval DefaultCollectionInterval }
    | none => col
  let col :=
    match configMap.lookup "prefix" with
    | some (.str str) => { col with prefix_ := str }
    | _ => col
  let col :=
    match configMap.lookup "metrics_blacklist" with
    | some asInterface => { col with blacklist := config.GetAsSlice asInterface }
    | none => col
  match configMap.lookup "dimensions_blacklist" with
  | some asInterface => { col with dimensionsBlacklist := config.GetAsMap asInterface }
  | none => col

/-- `SetInterval` : set the interval to collect on. -/
def SetInterval (col : baseCollector) (interval : Int) : baseCollector :=
  { col with interval := interval }

/-- `SetPrefix` : set the optional prefix for the collector. -/
def SetPrefix (col : baseCollector) (p : String) : baseCollector :=
  { col with prefix_ := p }

/-- `SetCollectorType` : collector type. -/
def SetCollectorType (col : baseCollector) (collectorType : String) : baseCollector :=
  { col with collectorType := collectorType }

/-- `SetCanonicalName` : collector canonical name. -/
def SetCanonicalName (col : baseCollector) (name : String) : baseCollector :=
  { col with canonicalName := name }

/-- `SetBlacklist` : set collector optional metrics blacklist. -/
def SetBlacklist (col : baseCollector) (blacklist : List String) : baseCollector :=
  { col with blacklist := blacklist }

/-- `SetDimensionsBlacklist` : set collector optional dimensions blacklist. -/
def SetDimensionsBlacklist (col : baseCollector) (blacklist : List (String × String)) :
    baseCollector :=
  { col with dimensionsBlacklist := blacklist }

/-- `CanonicalName` : collector canonical name. -/
def CanonicalName (col : baseCollector) : String := col.canonicalName

/-- `CollectorType` : collector type. -/
def CollectorType (col : baseCollector) : String := col.collectorType

/-- `Prefix` : optional prefix for all metrics from this collector. -/
def Prefix (col : baseCollector) : String := col.prefix_

/-- `Channel` : the channel on which the collector should send metrics. -/
def Channel (col : baseCollector) : Chan := col.channel

/-- `Name` : the name of the collector. -/
def Name (col : baseCollector) : String := col.name

/-- `Interval` : the interval to collect the metrics on. -/
def Interval (col : baseCollector) : Int := col.interval

/-- `Blacklist` returns the list of metrics to be blacklisted for this collector. -/
def Blacklist (col : baseCollector) : List String := col.blacklist

/-- `DimensionsBlacklist` returns the list of dimensions to be blacklisted for this collector. -/
def DimensionsBlacklist (col : baseCollector) : List (String × String) := col.dimensionsBlacklist

/-- The `range` loop of `ContainsBlacklistedDimension` over the pairs in the order they are
visited: `return true` on a match, `break` (and so `false`) on an error. -/
def rangeBlacklist (R : RegexpEngine) (dimensions : List (String × String)) :
    List (String × String) → Bool
  | [] => false
  | (k, v) :: rest =>
    let r := R.MatchString v ((dimensions.lookup k).getD "")
    if r.1 then true
    else if r.2 then false
    else rangeBlacklist R dimensions rest

/-- `ContainsBlacklistedDimension` returns true if dimensions passed as argument contain values
blacklisted by the user. Go visits the pairs of a map in an unspecified order: `visit m` is the
order in which `range` yields the pairs of the map `m`, a permutation of `m`. -/
def ContainsBlacklistedDimension (R : RegexpEngine)
    (visit : List (String × String) → List (String × String)) (col : baseCollector)
    (dimensions : List (String × String)) : Bool :=
  rangeBlacklist R dimensions (visit col.DimensionsBlacklist)

end baseCollector

/-- A value of the interface `Collector` that is not nil: the embedded `baseCollector`, which
implements every method but `Collect` and `Configure`, and the state `σ` of the concrete
collector. -/
structure Collector (σ : Type) where
  base : baseCollector
  concrete : σ

/-- A factory `func(chan metric.Metric, int, *l.Entry) Collector`. It may act on the rest of the
program, a state of type `ω`, and it may return the nil interface (`none`). -/
abbrev Factory (σ ω : Type) := Chan → Int → LogEntry → ω → Option (Collector σ) × ω

/-- The variable `collectorConstructs`: `none` is the nil map. -/
abbrev Registry (σ ω : Type) := Option (List (String × Factory σ ω))

/-- A read `collectorConstructs[key]`, also of the nil map. -/
def Registry.get {σ ω : Type} (collectorConstructs : Registry σ ω) (key : String) :
    Option (Factory σ ω) :=
  match collectorConstructs with
  | none => none
  | some m => m.lookup key

/-- `RegisterCollector` composes a map of collector names -> factory functions. -/
def RegisterCollector {σ ω : Type} (collectorConstructs : Registry σ ω) (name : String)
    (f : Factory σ ω) : Registry σ ω :=
  let m := match collectorConstructs with
    | none => []
    | some m => m
  some ((name, f) :: m.filter (fun p => p.1 ≠ name))

/-- A run-time panic. -/
inductive Panic where
  | indexOutOfRange
  | nilDereference
  deriving Repr, DecidableEq

/-- `New` creates a new Collector based on the requested collector name. `channel` is the channel
that `make` returns and `w` the state of the rest of the program; the result is the returned
interface value (`none` for nil) or a panic, and the state afterwards. -/
def New {σ ω : Type} (collectorConstructs : Registry σ ω) (channel : Chan) (name : String)
    (w : ω) : Except Panic (Option (Collector σ)) × ω :=
  let collectorLog := defaultLog.WithFields [("collector", name)]
  match strings.Split name ' ' with
  | [] => (.error .indexOutOfRange, w)
  | realName :: _ =>
    match collectorConstructs.get realName with
    | some f =>
      match f channel DefaultCollectionInterval collectorLog w with
      | (none, w1) => (.error .nilDereference, w1)
      | (some collector, w1) =>
        let collector :=
          if collector.base.CollectorType = "" then
            { collector with base := collector.base.SetCollectorType "collector" }
          else collector
        (.ok (some { collector with base := collector.base.SetCanonicalName name }), w1)
    | none => (.ok none, w)

end collector

/-! ## Specification-side notions -/

/-- The text of `name` before its first space (all of `name` when it has none). -/
def leadingToken (name : String) : String :=
  String.mk (name.data.takeWhile (fun c => c ≠ ' '))

/-- The number that decimal digits write, continuing from the number `a` written so far. -/
def decimalFrom (a : Nat) (digits : List Char) : Nat :=
  digits.foldl (fun a c => a * 10 + (c.toNat - '0'.toNat)) a

/-- `s` fully parses as the base-10 integer `n`: an optional sign `+` or `-`, then one or more
decimal digits that write the magnitude of `n`, and nothing else. -/
def IsBase10Numeral (s : String) (n : Int) : Prop :=
  ∃ sign digits : List Char, s.data = sign ++ digits ∧
    (sign = [] ∨ sign = ['+'] ∨ sign = ['-']) ∧
    digits ≠ [] ∧ (∀ c ∈ digits, '0' ≤ c ∧ c ≤ '9') ∧
    n = if sign = ['-'] then -(decimalFrom 0 digits : Int) else (decimalFrom 0 digits : Int)

/-- `s` fully parses as a base-10 integer `n` of the 64-bit range. -/
def ParsesAsInt64 (s : String) (n : Int) : Prop :=
  IsBase10Numeral s n ∧ -(2 ^ 63 : Int) ≤ n ∧ n < 2 ^ 63

/-! ## Values for concrete evaluations -/

/-- A factory for concrete evaluations: a collector named `Test` on the given channel, with the
given interval and log entry and no collector type; it counts its calls in the program state. -/
def testFactory : collector.Factory Unit Nat := fun channel interval log w =>
  (some ⟨⟨channel, "Test", interval, "", "", "", [], [], log⟩, ()⟩, w + 1)

/-- A factory for concrete evaluations that sets the collector type `listener`. -/
def listenerFactory : collector.Factory Unit Nat := fun channel interval log w =>
  (some ⟨⟨channel, "Listener", interval, "listener", "", "", [], [], log⟩, ()⟩, w + 1)

/-- A value fails integer coercion: a string that `ParseInt` rejects, or a value that is not a
string, an `int`, an `int32`, an `int64` or a `float64`. -/
def coercionFails (v : Value) : Bool :=
  match v with
  | .str s =>
    match strconv.ParseInt s with
    | .ok _ => false
    | .error _ => true
  | .int _ => false
  | .int32 _ => false
  | .int64 _ => false
  | .float64 _ => false
  | _ => true

/-- A value is a sequence. -/
def isSequence (v : Value) : Bool :=
  match v with
  | .strSlice _ => true
  | .slice _ => true
  | _ => false

/-- The pattern compiles and the compiled expression matches `s`. -/
def Matches (R : RegexpEngine) (pattern s : String) : Prop :=
  ∃ re, R.Compile pattern = some re ∧ R.reMatchString re s = true

/-- The value of `dimensions[k]`: the empty string when the key is absent. -/
def dimensionAt (dimensions : List (String × String)) (k : String) : String :=
  (dimensions.lookup k).getD ""

/-- An implementation whose out-of-range float conversions give 0, for concrete evaluations. -/
def outOfRangeZero : Float64 → Int := fun _ => 0

/-- A collector base state for concrete evaluations: interval 5, blacklist `foo`. -/
def sampleBase : collector.baseCollector :=
  ⟨1, "Test", 5, "collector", "Test one", "pre", ["foo"], [("host", "^db")], ⟨[]⟩⟩

/-- The collector `sampleBase` with the dimensions blacklist `bl`. -/
def withDimensionsBlacklist (bl : List (String × String)) : collector.baseCollector :=
  sampleBase.SetDimensionsBlacklist bl

/-! ## `GetAsFloat` -/

namespace config

/-- `GetAsFloat` parses a string to a float or returns the float if float is passed in.
`ParseFloat` is `strconv.ParseFloat(s, 64)`, which is outside the repository: `.error` when it
returns an error. -/
def GetAsFloat (ParseFloat : String → Except strconv.NumError Float64) (value : Value)
    (defaultValue : Float64) : Float64 :=
  match value with
  | .str s =>
    match ParseFloat s with
    | .error _ => defaultValue
    | .ok fromString => fromString
  | .float64 f => f
  | _ => defaultValue

end config

/-- The position of the highest set bit of `n`, found in at most `fuel` halvings. -/
def highBit : Nat → Nat → Nat
  | 0, _ => 0
  | fuel + 1, n => if 2 ≤ n then highBit fuel (n / 2) + 1 else 0

/-- The `float64` nearest to the positive quotient `n / d`, ties to even: a mantissa in
`[2^52, 2^53)` and its exponent. -/
def nearestFloat64 (n d : Nat) : Int × Int :=
  let e1 : Int := (highBit n n : Int) - (highBit d d : Int) - 52
  let num := fun (e : Int) => if 0 ≤ e then n else n * 2 ^ (-e).toNat
  let den := fun (e : Int) => if 0 ≤ e then d * 2 ^ e.toNat else d
  let e := if num e1 / den e1 ≥ 2 ^ 52 then e1 else e1 - 1
  let q := num e / den e
  let r := num e % den e
  let m := if 2 * r > den e ∨ (2 * r = den e ∧ q % 2 = 1) then q + 1 else q
  if m = 2 ^ 53 then (2 ^ 52, e + 1) else ((m : Int), e)

/-- A small `ParseFloat` for concrete evaluations: it accepts an optional sign, one or more
digits and optionally a point with one or more digits, and rejects every other string. On an
accepted string whose value is zero or in the normal range it gives the nearest `float64`, as
Go's `strconv.ParseFloat` does. -/
def decimalParseFloat (s : String) : Except strconv.NumError Float64 :=
  let signed : Bool × List Char :=
    match s.data with
    | '-' :: r => (true, r)
    | '+' :: r => (false, r)
    | r => (false, r)
  let ip := signed.2.takeWhile Char.isDigit
  let fraction : Option (List Char) :=
    match signed.2.dropWhile Char.isDigit with
    | [] => some []
    | '.' :: f => if f ≠ [] ∧ f.all Char.isDigit then some f else none
    | _ => none
  match fraction with
  | none => .error .ErrSyntax
  | some fp =>
    if ip = [] then .error .ErrSyntax
    else
      let n := decimalFrom 0 (ip ++ fp)
      if n = 0 then .ok (.finite 0 0)
      else
        let me := nearestFloat64 n (10 ^ fp.length)
        if -1074 ≤ me.2 ∧ me.2 ≤ 971 then .ok (.finite (if signed.1 then -me.1 else me.1) me.2)
        else .error .ErrRange

/-- The rational number that the finite float `mant * 2 ^ exp` stands for. -/
def float64Value (mant exp : Int) : ℚ := (mant : ℚ) * (2 : ℚ) ^ exp

/-- A rational number truncated toward zero: the fraction is discarded. -/
def truncTowardZero (q : ℚ) : Int := if 0 ≤ q then ⌊q⌋ else ⌈q⌉

/-- A value of no supported shape for the integer coercion: neither a string, nor an integer of
any width, nor a float of any width. -/
def isUnsupportedShape (v : Value) : Bool :=
  match v with
  | .nil => true
  | .bool _ => true
  | .strSlice _ => true
  | .slice _ => true
  | .strMap _ => true
  | .map _ => true
  | _ => false

/-! ## Package `handler` and package `internalserver` -/

namespace handler

/-- Modelled from the spec: the struct `handler.InternalMetrics` is used by `buildResponse` but
declared outside the sources. The spec: `counters` (mapping string to float) and `gauges`
(mapping string to float). -/
structure InternalMetrics where
  Counters : List (String × Float64)
  Gauges : List (String × Float64)
  deriving Repr, DecidableEq

/-- Modelled from the spec: the interface `handler.Handler` is used by `buildResponse` but
declared outside the sources. The spec: a forwarder exposes `name()` and `internalMetrics()`;
a handler is given by what the two calls return. -/
structure Handler where
  Name : String
  InternalMetrics : InternalMetrics
  deriving Repr, DecidableEq

end handler

namespace internalserver

/-- The assignment `m[k] = v` of a Go map: the binding of `k` is replaced or added. -/
def mapSet {β : Type} (m : List (String × β)) (k : String) (v : β) : List (String × β) :=
  (k, v) :: m.filter (fun p => p.1 ≠ k)

/-- The struct `ResponseFormat`. -/
structure ResponseFormat where
  Memory : handler.InternalMetrics
  Handlers : List (String × handler.InternalMetrics)
  deriving Repr, DecidableEq

/-- The loop of `buildResponse` that queries each handler: `handlerStats` after the loop. -/
def handlerStats (handlers : List handler.Handler) : List (String × handler.InternalMetrics) :=
  handlers.foldl (fun stats inst => mapSet stats inst.Name inst.InternalMetrics) []

/-- `buildResponse`, responsible for querying each handler: the value `rsp` that it assembles
and hands to `json.Marshal`. `memoryStats` is what `getMemoryStats()` returns, read from the Go
runtime. -/
def buildResponse (memoryStats : handler.InternalMetrics) (handlers : List handler.Handler) :
    ResponseFormat :=
  { Handlers := handlerStats handlers
    Memory := memoryStats }

end internalserver

/-- The last handler of the list, in registration order, that has the name `k`. -/
def lastWithName (handlers : List handler.Handler) (k : String) : Option handler.Handler :=
  handlers.reverse.find? (fun h => h.Name = k)

/-! ## Operations of the collector base state -/

/-- The operations of the collector base state that can change it. -/
inductive BaseOp where
  | configureCommonParams (configMap : List (String × Value))
  | SetInterval (interval : Int)
  | SetPrefix (p : String)
  | SetCollectorType (collectorType : String)
  | SetCanonicalName (name : String)
  | SetBlacklist (blacklist : List String)
  | SetDimensionsBlacklist (blacklist : List (String × String))

/-- One operation applied to a collector base state. -/
def BaseOp.apply (outOfRange : Float64 → Int) (col : collector.baseCollector) :
    BaseOp → collector.baseCollector
  | .configureCommonParams configMap => col.configureCommonParams outOfRange configMap
  | .SetInterval interval => col.SetInterval interval
  | .SetPrefix p => col.SetPrefix p
  | .SetCollectorType collectorType => col.SetCollectorType collectorType
  | .SetCanonicalName name => col.SetCanonicalName name
  | .SetBlacklist blacklist => col.SetBlacklist blacklist
  | .SetDimensionsBlacklist blacklist => col.SetDimensionsBlacklist blacklist

/-- The operation is a call of `SetCanonicalName`. -/
def BaseOp.isSetCanonicalName : BaseOp → Bool
  | .SetCanonicalName _ => true
  | _ => false

/-- A sequence of operations applied to a collector base state, first to last. -/
def runOps (outOfRange : Float64 → Int) (col : collector.baseCollector) (ops : List BaseOp) :
    collector.baseCollector :=
  ops.foldl (BaseOp.apply outOfRange) col

/-! # Theorems -/

/-! ## Lemmas on `strings.Split` -/

theorem splitChars_ne_nil (sep : Char) (cs : List Char) : strings.splitChars sep cs ≠ [] := by
  cases cs with
  | nil => simp [strings.splitChars]
  | cons c cs =>
    unfold strings.splitChars
    split
    · simp
    · split <;> simp

theorem splitChars_head (sep : Char) (cs : List Char) :
    ∃ rest, strings.splitChars sep cs = cs.takeWhile (fun c => c ≠ sep) :: rest := by
  induction cs with
  | nil => exact ⟨[], by simp [strings.splitChars]⟩
  | cons c cs ih =>
    obtain ⟨rest, hrest⟩ := ih
    by_cases hc : c = sep
    · exact ⟨strings.splitChars sep cs, by simp [strings.splitChars, hc]⟩
    · exact ⟨rest, by simp [strings.splitChars, hc, hrest]⟩

theorem Split_head (name : String) :
    ∃ rest, strings.Split name ' ' = leadingToken name :: rest := by
  obtain ⟨rest, hrest⟩ := splitChars_head ' ' name.data
  exact ⟨rest.map String.mk, by simp [strings.Split, hrest, leadingToken]⟩

theorem leadingToken_append (T S : String) (hT : ' ' ∉ T.data) :
    leadingToken (T ++ " " ++ S) = T := by
  have h1 : (T ++ " " ++ S).data = T.data ++ ' ' :: S.data := by
    simp [String.data_append]
  have h2 : (T.data ++ ' ' :: S.data).takeWhile (fun c => decide (c ≠ ' ')) = T.data := by
    rw [List.takeWhile_append_of_pos]
    · simp
    · intro c hc
      have : c ≠ ' ' := fun h => hT (h ▸ hc)
      simpa using this
  simp only [leadingToken, h1, h2]

/-! ## `New` -/

open collector

/-- `New` looks the leading token of the name up and, when it is registered, calls the factory
with a channel, the default interval and the log entry of the name. -/
theorem New_eq {σ ω : Type} (reg : Registry σ ω) (channel : Chan) (name : String) (w : ω) :
    New reg channel name w =
      match reg.get (leadingToken name) with
      | some f =>
        match f channel 10 (defaultLog.WithFields [("collector", name)]) w with
        | (none, w1) => (.error .nilDereference, w1)
        | (some c, w1) =>
          (.ok (some { c with base :=
            { c.base with
              collectorType := if c.base.collectorType = "" then "collector"
                else c.base.collectorType
              canonicalName := name } }), w1)
      | none => (.ok none, w) := by
  obtain ⟨rest, hrest⟩ := Split_head name
  simp only [New, hrest, DefaultCollectionInterval]
  cases hget : reg.get (leadingToken name) with
  | none => rfl
  | some f =>
    simp only []
    rcases hf : f channel 10 (defaultLog.WithFields [("collector", name)]) w with ⟨r, w1⟩
    cases r with
    | none => rfl
    | some c =>
      simp only []
      by_cases hty : c.base.collectorType = ""
      · simp [baseCollector.CollectorType, baseCollector.SetCollectorType,
          baseCollector.SetCanonicalName, hty]
      · simp [baseCollector.CollectorType, baseCollector.SetCollectorType,
          baseCollector.SetCanonicalName, hty]

/-- C1: in a registry with a factory `f` under the type name `T` (no space in `T`), for every
suffix `S`, `New(T + " " + S)` returns the collector that `f` produced when called with the fresh
channel, the default interval 10 and the log entry of the name: the same concrete collector and
the same base state except for the defaulted collector type and the canonical name, which is
exactly `T + " " + S`. -/
theorem New_registered_with_suffix {σ ω : Type} (reg : Registry σ ω) (channel : Chan)
    (T S : String) (f : Factory σ ω) (w w1 : ω) (c : Collector σ)
    (hT : ' ' ∉ T.data) (hreg : reg.get T = some f)
    (hf : f channel 10 (defaultLog.WithFields [("collector", T ++ " " ++ S)]) w = (some c, w1)) :
    ∃ c1 : Collector σ, New reg channel (T ++ " " ++ S) w = (.ok (some c1), w1) ∧
      c1.concrete = c.concrete ∧
      c1.base = { c.base with
        collectorType := if c.base.collectorType = "" then "collector" else c.base.collectorType
        canonicalName := T ++ " " ++ S } ∧
      c1.base.CanonicalName = T ++ " " ++ S := by
  refine ⟨{ c with base := { c.base with
      collectorType := if c.base.collectorType = "" then "collector" else c.base.collectorType
      canonicalName := T ++ " " ++ S } }, ?_, rfl, rfl, rfl⟩
  rw [New_eq, leadingToken_append T S hT, hreg]
  simp only [hf]

/-- C1, at the registry with `testFactory` under `Test` and the name `Test one two`. -/
theorem New_registered_with_suffix_witness :
    ∃ c1 : Collector Unit,
      New (RegisterCollector none "Test" testFactory) 7 ("Test" ++ " " ++ "one two") 0
        = (.ok (some c1), 1) ∧
      c1.concrete = () ∧
      c1.base = { ((⟨⟨7, "Test", 10, "", "", "", [], [],
          defaultLog.WithFields [("collector", "Test" ++ " " ++ "one two")]⟩, ()⟩ :
            Collector Unit)).base with
        collectorType := if "" = "" then "collector" else ""
        canonicalName := "Test" ++ " " ++ "one two" } ∧
      c1.base.CanonicalName = "Test" ++ " " ++ "one two" :=
  New_registered_with_suffix (RegisterCollector none "Test" testFactory) 7 "Test" "one two"
    testFactory 0 1 _ (by decide) (by simp [RegisterCollector, Registry.get, List.lookup]) rfl

/-- C2: when the leading token of the requested name (the text before its first space) has no
registered factory, `New` returns nil without a panic and leaves the rest of the program as it
was, so no factory ran; this is so in particular for the nil registry, whatever the name. -/
theorem New_unregistered {σ ω : Type} (reg : Registry σ ω) (channel : Chan) (name : String)
    (w : ω) (h : reg.get (leadingToken name) = none) :
    New reg channel name w = (.ok none, w) ∧
      New (none : Registry σ ω) channel name w = (.ok none, w) := by
  constructor
  · rw [New_eq, h]
  · rw [New_eq]; rfl

/-- C2, at the registry with only `Test` and the name `Other one`. -/
theorem New_unregistered_witness :
    New (RegisterCollector none "Test" testFactory) 7 "Other one" 0 = (.ok none, 0) ∧
      New (none : Registry Unit Nat) 7 "Other one" 0 = (.ok none, 0) :=
  New_unregistered (RegisterCollector none "Test" testFactory) 7 "Other one" 0 (by rfl)

/-- C10: every `New(name)` that returns a collector got it from the factory registered under the
leading token of `name`; the returned collector has collector type `collector` when the factory
left the type empty and the factory's type `t` otherwise, and its canonical name is `name`. -/
theorem New_collectorType {σ ω : Type} (reg : Registry σ ω) (channel : Chan) (name : String)
    (w w1 : ω) (c1 : Collector σ) (h : New reg channel name w = (.ok (some c1), w1)) :
    ∃ (f : Factory σ ω) (c : Collector σ),
      reg.get (leadingToken name) = some f ∧
      f channel 10 (defaultLog.WithFields [("collector", name)]) w = (some c, w1) ∧
      (c.base.CollectorType = "" → c1.base.CollectorType = "collector") ∧
      (c.base.CollectorType ≠ "" → c1.base.CollectorType = c.base.CollectorType) ∧
      c1.base.CanonicalName = name := by
  rw [New_eq] at h
  cases hget : reg.get (leadingToken name) with
  | none => simp [hget] at h
  | some f =>
    rcases hf : f channel 10 (defaultLog.WithFields [("collector", name)]) w with ⟨r, w2⟩
    cases r with
    | none => simp [hget, hf] at h
    | some c =>
      simp only [hget, hf, Prod.mk.injEq, Except.ok.injEq, Option.some.injEq] at h
      obtain ⟨hc, hw⟩ := h
      subst hc hw
      refine ⟨f, c, rfl, hf, ?_, ?_, rfl⟩
      · intro h0
        simp only [baseCollector.CollectorType] at h0 ⊢
        simp [h0]
      · intro h0
        simp only [baseCollector.CollectorType] at h0 ⊢
        simp [h0]

/-- C10, at `listenerFactory`, which sets the type `listener`, and the name `Listener a`. -/
theorem New_collectorType_witness :
    ∃ (f : Factory Unit Nat) (c : Collector Unit),
      (RegisterCollector none "Listener" listenerFactory).get (leadingToken "Listener a")
        = some f ∧
      f 3 10 (defaultLog.WithFields [("collector", "Listener a")]) 0 = (some c, 1) ∧
      (c.base.CollectorType = "" →
        (⟨⟨3, "Listener", 10, "listener", "Listener a", "", [], [],
          defaultLog.WithFields [("collector", "Listener a")]⟩, ()⟩ :
            Collector Unit).base.CollectorType = "collector") ∧
      (c.base.CollectorType ≠ "" →
        (⟨⟨3, "Listener", 10, "listener", "Listener a", "", [], [],
          defaultLog.WithFields [("collector", "Listener a")]⟩, ()⟩ :
            Collector Unit).base.CollectorType = c.base.CollectorType) ∧
      (⟨⟨3, "Listener", 10, "listener", "Listener a", "", [], [],
          defaultLog.WithFields [("collector", "Listener a")]⟩, ()⟩ :
            Collector Unit).base.CanonicalName = "Listener a" :=
  New_collectorType (RegisterCollector none "Listener" listenerFactory) 3 "Listener a" 0 1
    ⟨⟨3, "Listener", 10, "listener", "Listener a", "", [], [],
      defaultLog.WithFields [("collector", "Listener a")]⟩, ()⟩ (by rfl)

/-! ## `strconv.ParseInt` against the definition of a decimal numeral -/

theorem decimalFrom_ge (a : Nat) (cs : List Char) : a ≤ decimalFrom a cs := by
  induction cs generalizing a with
  | nil => simp [decimalFrom]
  | cons c cs ih =>
    have h := ih (a * 10 + (c.toNat - '0'.toNat))
    simp only [decimalFrom, List.foldl_cons] at h ⊢
    omega

theorem parseUintLoop_ok (cs : List Char) (n v : Nat) (hn : n < 18446744073709551616) :
    strconv.parseUintLoop cs n = .ok v ↔
      (∀ c ∈ cs, '0' ≤ c ∧ c ≤ '9') ∧ decimalFrom n cs = v ∧ v < 18446744073709551616 := by
  induction cs generalizing n with
  | nil =>
    simp only [strconv.parseUintLoop, decimalFrom, List.foldl_nil, Except.ok.injEq,
      List.not_mem_nil, false_imp_iff, implies_true, true_and]
    constructor
    · intro h; subst h; exact ⟨rfl, hn⟩
    · intro h; exact h.1
  | cons c cs ih =>
    have hfold : decimalFrom n (c :: cs) = decimalFrom (n * 10 + (c.toNat - '0'.toNat)) cs := rfl
    have hge := decimalFrom_ge (n * 10 + (c.toNat - '0'.toNat)) cs
    by_cases hd : '0' ≤ c ∧ c ≤ '9'
    · have hd9 : c.toNat ≤ 57 := hd.2
      have h0 : '0'.toNat = 48 := rfl
      have hmax : strconv.maxUint64 = 18446744073709551615 := by norm_num [strconv.maxUint64]
      have hpow : (2 : Nat) ^ 64 = 18446744073709551616 := by norm_num
      rw [strconv.parseUintLoop, if_pos hd, hfold]
      simp only [hmax, hpow, h0] at hge ⊢
      by_cases hcut : n ≥ 18446744073709551615 / 10 + 1
      · rw [if_pos hcut]
        constructor
        · intro h; cases h
        · rintro ⟨-, h1, h2⟩; omega
      · rw [if_neg hcut]
        by_cases hwrap : n * 10 + (c.toNat - 48) < 18446744073709551616
        · have hmod : (n * 10 + (c.toNat - 48)) % 18446744073709551616
              = n * 10 + (c.toNat - 48) := Nat.mod_eq_of_lt hwrap
          simp only [hmod]
          rw [if_neg (by omega)]
          rw [ih _ hwrap]
          constructor
          · rintro ⟨h1, h2, h3⟩
            exact ⟨by
              intro x hx
              rcases List.mem_cons.mp hx with hx | hx
              · exact hx ▸ hd
              · exact h1 x hx, h2, h3⟩
          · rintro ⟨h1, h2, h3⟩
            exact ⟨fun x hx => h1 x (List.mem_cons_of_mem _ hx), h2, h3⟩
        · have hmod : (n * 10 + (c.toNat - 48)) % 18446744073709551616
              = n * 10 + (c.toNat - 48) - 18446744073709551616 := by omega
          simp only [hmod]
          rw [if_pos (by omega)]
          constructor
          · intro h; cases h
          · rintro ⟨-, h1, h2⟩; omega
    · rw [strconv.parseUintLoop, if_neg hd]
      constructor
      · intro h; cases h
      · rintro ⟨h1, -, -⟩
        exact absurd (h1 c (List.mem_cons_self _ _)) hd

theorem ParseUint_ok (cs : List Char) (v : Nat) :
    strconv.ParseUint cs = .ok v ↔
      cs ≠ [] ∧ (∀ c ∈ cs, '0' ≤ c ∧ c ≤ '9') ∧ decimalFrom 0 cs = v ∧
        v < 18446744073709551616 := by
  by_cases h : cs = []
  · simp [strconv.ParseUint, h]
  · simp only [strconv.ParseUint, if_neg h, ne_eq, h, not_false_eq_true, true_and]
    exact parseUintLoop_ok cs 0 v (by norm_num)

/-- `ParseInt` after the sign, when the digits parse. -/
theorem ParseInt_of_ok (s : String) (c : Char) (cs : List Char) (u : Nat)
    (hs : s.data = c :: cs)
    (hu : strconv.ParseUint (if c = '+' ∨ c = '-' then cs else c :: cs) = .ok u) :
    strconv.ParseInt s =
      if ¬ c = '-' ∧ u ≥ 9223372036854775808 then .error .ErrRange
      else if c = '-' ∧ u > 9223372036854775808 then .error .ErrRange
      else .ok (if c = '-' then -(u : Int) else (u : Int)) := by
  have hpow : (2 : Nat) ^ 63 = 9223372036854775808 := by norm_num
  simp only [strconv.ParseInt, hs, hu, hpow]

/-- `ParseInt` fails when the digits after the sign do not parse. -/
theorem ParseInt_of_error (s : String) (c : Char) (cs : List Char) (e : strconv.NumError)
    (hs : s.data = c :: cs)
    (hu : strconv.ParseUint (if c = '+' ∨ c = '-' then cs else c :: cs) = .error e) :
    ∃ e1, strconv.ParseInt s = .error e1 := by
  have hpow : (2 : Nat) ^ 63 = 9223372036854775808 := by norm_num
  have hmax : strconv.maxUint64 = 18446744073709551615 := by norm_num [strconv.maxUint64]
  cases e with
  | ErrSyntax => exact ⟨.ErrSyntax, by simp only [strconv.ParseInt, hs, hu]⟩
  | ErrRange =>
    refine ⟨.ErrRange, ?_⟩
    simp only [strconv.ParseInt, hs, hu, hpow, hmax]
    by_cases hneg : c = '-'
    · simp [hneg]
    · simp [hneg]

/-- `ParseInt(s, 10, 64)` succeeds with `n` exactly when `s` is a decimal numeral of `n` and `n`
is in the 64-bit range. -/
theorem ParseInt_ok_iff (s : String) (n : Int) :
    strconv.ParseInt s = .ok n ↔ ParsesAsInt64 s n := by
  constructor
  · intro h
    cases hs : s.data with
    | nil => simp [strconv.ParseInt, hs] at h
    | cons c cs =>
      cases hu : strconv.ParseUint (if c = '+' ∨ c = '-' then cs else c :: cs) with
      | error e =>
        obtain ⟨e1, he⟩ := ParseInt_of_error s c cs e hs hu
        rw [he] at h; cases h
      | ok u =>
        rw [ParseInt_of_ok s c cs u hs hu] at h
        obtain ⟨hne, hdig, hval, -⟩ := (ParseUint_ok _ u).mp hu
        by_cases h1 : ¬ c = '-' ∧ u ≥ 9223372036854775808
        · rw [if_pos h1] at h; cases h
        · rw [if_neg h1] at h
          by_cases h2 : c = '-' ∧ u > 9223372036854775808
          · rw [if_pos h2] at h; cases h
          · rw [if_neg h2] at h
            have hn : n = if c = '-' then -(u : Int) else (u : Int) := by
              injection h with h; exact h.symm
            by_cases hsign : c = '+' ∨ c = '-'
            · rw [if_pos hsign] at hne hdig hval
              refine ⟨⟨[c], cs, hs, ?_, hne, hdig, ?_⟩, ?_, ?_⟩
              · rcases hsign with hc | hc
                · exact Or.inr (Or.inl (by rw [hc]))
                · exact Or.inr (Or.inr (by rw [hc]))
              · rw [hval, hn]
                by_cases hc : c = '-' <;> simp [hc]
              · by_cases hc : c = '-'
                · have h3 : ¬ u > 9223372036854775808 := fun hgt => h2 ⟨hc, hgt⟩
                  rw [hn, if_pos hc]; omega
                · rw [hn, if_neg hc]; omega
              · by_cases hc : c = '-'
                · rw [hn, if_pos hc]; omega
                · have h3 : ¬ u ≥ 9223372036854775808 := fun hge => h1 ⟨hc, hge⟩
                  rw [hn, if_neg hc]; omega
            · rw [if_neg hsign] at hne hdig hval
              have hc : ¬ c = '-' := fun hc => hsign (Or.inr hc)
              have hlt : ¬ u ≥ 9223372036854775808 := fun hge => h1 ⟨hc, hge⟩
              refine ⟨⟨[], c :: cs, hs, Or.inl rfl, hne, hdig, ?_⟩, ?_, ?_⟩
              · rw [hval, hn, if_neg hc]; simp
              · rw [hn, if_neg hc]; omega
              · rw [hn, if_neg hc]; omega
  · rintro ⟨⟨sign, digits, hdata, hsign, hne, hdig, hn⟩, hlo, hhi⟩
    rcases hsign with hsg | hsg | hsg
    · subst hsg
      obtain ⟨c, cs, rfl⟩ := List.exists_cons_of_ne_nil hne
      have hcd := hdig c (List.mem_cons_self _ _)
      have hplus : ¬ c = '+' := by
        intro hc; rw [hc] at hcd; exact absurd hcd.1 (by decide)
      have hminus : ¬ c = '-' := by
        intro hc; rw [hc] at hcd; exact absurd hcd.1 (by decide)
      have hsign : ¬ (c = '+' ∨ c = '-') := fun h => h.elim hplus hminus
      simp only [List.nil_append] at hdata
      have hkind : ¬ (([] : List Char) = ['-']) := by decide
      rw [if_neg hkind] at hn
      have hu : strconv.ParseUint (if c = '+' ∨ c = '-' then cs else c :: cs)
          = .ok (decimalFrom 0 (c :: cs)) := by
        rw [if_neg hsign]
        exact (ParseUint_ok _ _).mpr ⟨hne, hdig, rfl, by omega⟩
      rw [ParseInt_of_ok s c cs _ hdata hu, if_neg (by omega), if_neg (fun h => hminus h.1),
        if_neg hminus, hn]
    · subst hsg
      simp only [List.singleton_append] at hdata
      have hkind : ¬ (['+'] = ['-']) := by decide
      rw [if_neg hkind] at hn
      have hminus : ¬ '+' = '-' := by decide
      have hu : strconv.ParseUint (if '+' = '+' ∨ '+' = '-' then digits else '+' :: digits)
          = .ok (decimalFrom 0 digits) := by
        rw [if_pos (Or.inl rfl)]
        exact (ParseUint_ok _ _).mpr ⟨hne, hdig, rfl, by omega⟩
      rw [ParseInt_of_ok s '+' digits _ hdata hu, if_neg (by omega),
        if_neg (fun h => hminus h.1), if_neg hminus, hn]
    · subst hsg
      simp only [List.singleton_append] at hdata
      rw [if_pos rfl] at hn
      have hu : strconv.ParseUint (if '-' = '+' ∨ '-' = '-' then digits else '-' :: digits)
          = .ok (decimalFrom 0 digits) := by
        rw [if_pos (Or.inr rfl)]
        exact (ParseUint_ok _ _).mpr ⟨hne, hdig, rfl, by omega⟩
      rw [ParseInt_of_ok s '-' digits _ hdata hu, if_neg (fun h => h.1 rfl),
        if_neg (by omega), if_pos rfl, hn]

/-! ## `GetAsInt` on strings -/

/-- C3: for every string `s` and default `d`, `GetAsInt(s, d)` is `n` when `s` fully parses as a
base-10 integer `n` of the 64-bit range, and `d` when it parses as no such integer; so
`GetAsInt("42", 7) = 42`, `GetAsInt("abc", 7) = 7`, and the empty string, trailing garbage,
leading garbage, a decimal point and the value `2^63` all give the default. -/
theorem GetAsInt_string (outOfRange : Float64 → Int) (s : String) (d : Int) :
    (∀ n, ParsesAsInt64 s n → config.GetAsInt outOfRange (.str s) d = n) ∧
    ((¬ ∃ n, ParsesAsInt64 s n) → config.GetAsInt outOfRange (.str s) d = d) ∧
    config.GetAsInt outOfRange (.str "42") 7 = 42 ∧
    config.GetAsInt outOfRange (.str "abc") 7 = 7 ∧
    config.GetAsInt outOfRange (.str "") d = d ∧
    config.GetAsInt outOfRange (.str "42x") d = d ∧
    config.GetAsInt outOfRange (.str " 42") d = d ∧
    config.GetAsInt outOfRange (.str "4.2") d = d ∧
    config.GetAsInt outOfRange (.str "9223372036854775808") d = d ∧
    config.GetAsInt outOfRange (.str "-9223372036854775808") d = -9223372036854775808 := by
  refine ⟨?_, ?_, rfl, rfl, rfl, rfl, rfl, rfl, rfl, rfl⟩
  · intro n hn
    have h := (ParseInt_ok_iff s n).mpr hn
    simp only [config.GetAsInt, h]
  · intro hno
    cases h : strconv.ParseInt s with
    | ok n => exact absurd ⟨n, (ParseInt_ok_iff s n).mp h⟩ hno
    | error e => simp only [config.GetAsInt, h]

/-- C3, at the string `-17`. -/
theorem GetAsInt_string_witness :
    ParsesAsInt64 "-17" (-17) ∧ config.GetAsInt outOfRangeZero (.str "-17") 7 = -17 :=
  ⟨(ParseInt_ok_iff "-17" (-17)).mp (by rfl),
    (GetAsInt_string outOfRangeZero "-17" 7).1 (-17) ((ParseInt_ok_iff "-17" (-17)).mp (by rfl))⟩

/-! ## `configureCommonParams` -/

theorem GetAsInt_of_coercionFails (outOfRange : Float64 → Int) (v : Value) (d : Int)
    (h : coercionFails v = true) : config.GetAsInt outOfRange v d = d := by
  cases v <;> simp only [coercionFails] at h <;> try (first | rfl | cases h)
  case str s =>
    cases hp : strconv.ParseInt s with
    | ok n => rw [hp] at h; cases h
    | error e => simp only [config.GetAsInt, hp]

/-- The fields of the collector after `configureCommonParams`, one by one. -/
theorem configure_eq (outOfRange : Float64 → Int) (col : baseCollector)
    (configMap : List (String × Value)) :
    baseCollector.configureCommonParams outOfRange col configMap =
      { channel := col.channel
        name := col.name
        interval :=
          match configMap.lookup "interval" with
          | some v => config.GetAsInt outOfRange v 10
          | none => col.interval
        collectorType := col.collectorType
        canonicalName := col.canonicalName
        prefix_ :=
          match configMap.lookup "prefix" with
          | some (.str str) => str
          | _ => col.prefix_
        blacklist :=
          match configMap.lookup "metrics_blacklist" with
          | some v => config.GetAsSlice v
          | none => col.blacklist
        dimensionsBlacklist :=
          match configMap.lookup "dimensions_blacklist" with
          | some v => config.GetAsMap v
          | none => col.dimensionsBlacklist
        log := col.log } := by
  unfold baseCollector.configureCommonParams
  simp only [DefaultCollectionInterval]
  generalize configMap.lookup "interval" = a
  generalize configMap.lookup "prefix" = b
  generalize configMap.lookup "metrics_blacklist" = c
  generalize configMap.lookup "dimensions_blacklist" = d
  cases a <;> cases c <;> cases d <;> rcases b with _ | v <;>
    first | rfl | (cases v <;> rfl)

/-- C4 as stated fails: from interval 5, the string `abc` under `interval` fails integer coercion
and `configureCommonParams` sets the interval to 10, not to the prior 5. -/
theorem configure_interval_invalid_counterexample :
    coercionFails (.str "abc") = true ∧ sampleBase.interval = 5 ∧
      (baseCollector.configureCommonParams outOfRangeZero sampleBase
        [("interval", .str "abc")]).interval = 10 ∧
      (baseCollector.configureCommonParams outOfRangeZero sampleBase
        [("interval", .str "abc")]).interval ≠ sampleBase.interval := by
  decide

/-- C4, amended: when the key `interval` is missing the interval keeps its prior value `p`; when
the key holds a value that fails integer coercion (a string that is no decimal numeral of the
64-bit range, a boolean, nil, ...) the interval becomes the default 10, whatever `p` was. -/
theorem configure_interval_missing_or_invalid (outOfRange : Float64 → Int)
    (col : baseCollector) (configMap : List (String × Value)) :
    (configMap.lookup "interval" = none →
      (baseCollector.configureCommonParams outOfRange col configMap).interval = col.interval) ∧
    (∀ v, configMap.lookup "interval" = some v → coercionFails v = true →
      (baseCollector.configureCommonParams outOfRange col configMap).interval = 10) ∧
    (∀ s, (¬ ∃ n, ParsesAsInt64 s n) → coercionFails (.str s) = true) ∧
    coercionFails (.bool true) = true ∧ coercionFails .nil = true := by
  rw [configure_eq]
  refine ⟨?_, ?_, ?_, rfl, rfl⟩
  · intro hnone
    simp only [hnone]
  · intro v hsome hfail
    simp only [hsome]
    exact GetAsInt_of_coercionFails outOfRange v 10 hfail
  · intro s hno
    cases h : strconv.ParseInt s with
    | ok n => exact absurd ⟨n, (ParseInt_ok_iff s n).mp h⟩ hno
    | error e => simp only [coercionFails, h]

/-- C4 amended, at interval 5 and the value `true` under `interval`. -/
theorem configure_interval_missing_or_invalid_witness :
    (baseCollector.configureCommonParams outOfRangeZero sampleBase
      [("interval", .bool true)]).interval = 10 :=
  (configure_interval_missing_or_invalid outOfRangeZero sampleBase
    [("interval", .bool true)]).2.1 (.bool true) rfl rfl

/-- C5 as stated fails: from the positive interval 5, the values `"0"`, `"-5"`, `0`, `-1` and
`-0.5` under `interval` give the intervals 0, -5, 0, -1 and 0, none of them positive. -/
theorem configure_interval_positive_counterexample :
    0 < sampleBase.interval ∧
      (baseCollector.configureCommonParams outOfRangeZero sampleBase
        [("interval", .str "0")]).interval = 0 ∧
      (baseCollector.configureCommonParams outOfRangeZero sampleBase
        [("interval", .str "-5")]).interval = -5 ∧
      (baseCollector.configureCommonParams outOfRangeZero sampleBase
        [("interval", .int 0)]).interval = 0 ∧
      (baseCollector.configureCommonParams outOfRangeZero sampleBase
        [("interval", .int (-1))]).interval = -1 ∧
      (baseCollector.configureCommonParams outOfRangeZero sampleBase
        [("interval", .float64 (.finite (-1) (-1)))]).interval = 0 ∧
      ¬ 0 < (baseCollector.configureCommonParams outOfRangeZero sampleBase
        [("interval", .str "0")]).interval := by
  decide

/-- C5, amended: from a positive interval, the interval after `configureCommonParams` is the
prior one when the key `interval` is absent and `GetAsInt(v, 10)` when the key holds `v`; it is
positive exactly when the key is absent or `GetAsInt(v, 10)` is positive. -/
theorem configure_interval_positive (outOfRange : Float64 → Int) (col : baseCollector)
    (configMap : List (String × Value)) (hpos : 0 < col.interval) :
    (configMap.lookup "interval" = none →
      (baseCollector.configureCommonParams outOfRange col configMap).interval = col.interval) ∧
    (∀ v, configMap.lookup "interval" = some v →
      (baseCollector.configureCommonParams outOfRange col configMap).interval
        = config.GetAsInt outOfRange v 10) ∧
    (0 < (baseCollector.configureCommonParams outOfRange col configMap).interval ↔
      ∀ v, configMap.lookup "interval" = some v → 0 < config.GetAsInt outOfRange v 10) := by
  rw [configure_eq]
  cases hl : configMap.lookup "interval" with
  | none => simp [hpos]
  | some v => simp

/-- C5 amended, at interval 5 and the string `30` under `interval`. -/
theorem configure_interval_positive_witness :
    0 < sampleBase.interval ∧
    (0 < (baseCollector.configureCommonParams outOfRangeZero sampleBase
        [("interval", .str "30")]).interval ↔
      ∀ v, ([("interval", Value.str "30")] : List (String × Value)).lookup "interval" = some v →
        0 < config.GetAsInt outOfRangeZero v 10) :=
  ⟨by decide,
    (configure_interval_positive outOfRangeZero sampleBase [("interval", .str "30")]
      (by decide)).2.2⟩

/-- C8: `configureCommonParams` leaves the interval, the prefix, the blacklist and the dimensions
blacklist at their prior values when the key `interval`, `prefix`, `metrics_blacklist`,
`dimensions_blacklist` is absent from the map, whatever other keys the map has, and it never
changes the name, the canonical name, the collector type, the channel or the log entry. -/
theorem configure_frame (outOfRange : Float64 → Int) (col : baseCollector)
    (configMap : List (String × Value)) :
    (configMap.lookup "interval" = none →
      (baseCollector.configureCommonParams outOfRange col configMap).Interval = col.Interval) ∧
    (configMap.lookup "prefix" = none →
      (baseCollector.configureCommonParams outOfRange col configMap).Prefix = col.Prefix) ∧
    (configMap.lookup "metrics_blacklist" = none →
      (baseCollector.configureCommonParams outOfRange col configMap).Blacklist
        = col.Blacklist) ∧
    (configMap.lookup "dimensions_blacklist" = none →
      (baseCollector.configureCommonParams outOfRange col configMap).DimensionsBlacklist
        = col.DimensionsBlacklist) ∧
    (baseCollector.configureCommonParams outOfRange col configMap).Name = col.Name ∧
    (baseCollector.configureCommonParams outOfRange col configMap).CanonicalName
      = col.CanonicalName ∧
    (baseCollector.configureCommonParams outOfRange col configMap).CollectorType
      = col.CollectorType ∧
    (baseCollector.configureCommonParams outOfRange col configMap).Channel = col.Channel ∧
    (baseCollector.configureCommonParams outOfRange col configMap).log = col.log := by
  rw [configure_eq]
  refine ⟨?_, ?_, ?_, ?_, rfl, rfl, rfl, rfl, rfl⟩
  · intro h; simp only [baseCollector.Interval, h]
  · intro h; simp only [baseCollector.Prefix, h]
  · intro h; simp only [baseCollector.Blacklist, h]
  · intro h; simp only [baseCollector.DimensionsBlacklist, h]

/-- C8, at a collector with the blacklist `foo` and a map with `interval`, `prefix` and an
unrecognised key: the blacklist is still `foo`. -/
theorem configure_frame_witness :
    (baseCollector.configureCommonParams outOfRangeZero sampleBase
      [("bogus", .int 1), ("interval", .str "30"), ("prefix", .str "x")]).Blacklist = ["foo"] :=
  (configure_frame outOfRangeZero sampleBase
    [("bogus", .int 1), ("interval", .str "30"), ("prefix", .str "x")]).2.2.1 rfl

theorem stringsOf_map_str (L : List String) : config.stringsOf (L.map Value.str) = some L := by
  induction L with
  | nil => rfl
  | cons x xs ih => simp [config.stringsOf, ih]

/-- C9: with `"metrics_blacklist": L` in the map, for `L` an ordered sequence of strings (a
`[]string`, or a `[]interface{}` of strings), `configureCommonParams` sets the blacklist to exactly
`L`, whatever the prior blacklist was; with a value that is not a sequence the blacklist becomes
empty. -/
theorem configure_blacklist (outOfRange : Float64 → Int) (col : baseCollector)
    (configMap : List (String × Value)) (v : Value)
    (h : configMap.lookup "metrics_blacklist" = some v) :
    (∀ L : List String, v = .strSlice L ∨ v = .slice (L.map Value.str) →
      (baseCollector.configureCommonParams outOfRange col configMap).Blacklist = L) ∧
    (isSequence v = false →
      (baseCollector.configureCommonParams outOfRange col configMap).Blacklist = []) := by
  rw [configure_eq]
  simp only [baseCollector.Blacklist, h]
  constructor
  · rintro L (hL | hL)
    · rw [hL]; rfl
    · rw [hL]; simp only [config.GetAsSlice, stringsOf_map_str]
  · intro hseq
    cases v <;> first | rfl | cases hseq

/-- C9, at the prior blacklist `foo` and `"metrics_blacklist": ["foo", "bar"]`. -/
theorem configure_blacklist_witness :
    (baseCollector.configureCommonParams outOfRangeZero sampleBase
      [("metrics_blacklist", .slice [.str "foo", .str "bar"])]).Blacklist = ["foo", "bar"] :=
  (configure_blacklist outOfRangeZero sampleBase
    [("metrics_blacklist", .slice [.str "foo", .str "bar"])]
    (.slice [.str "foo", .str "bar"]) rfl).1 ["foo", "bar"] (Or.inr rfl)

/-! ## `ContainsBlacklistedDimension` -/

/-- The loop returns true exactly when the visit reaches a pair that matches and no pair
visited before it fails to compile. -/
theorem rangeBlacklist_eq_true_iff (R : RegexpEngine) (dimensions : List (String × String))
    (order : List (String × String)) :
    baseCollector.rangeBlacklist R dimensions order = true ↔
      ∃ pre p post, order = pre ++ p :: post ∧
        Matches R p.2 (dimensionAt dimensions p.1) ∧ ∀ q ∈ pre, R.Compile q.2 ≠ none := by
  induction order with
  | nil => simp [baseCollector.rangeBlacklist]
  | cons kv rest ih =>
    obtain ⟨k, v⟩ := kv
    cases hc : R.Compile v with
    | none =>
      have hloop : baseCollector.rangeBlacklist R dimensions ((k, v) :: rest) = false := by
        simp [baseCollector.rangeBlacklist, RegexpEngine.MatchString, hc]
      rw [hloop]
      constructor
      · intro h; cases h
      · rintro ⟨pre, p, post, hsplit, ⟨re, hre, -⟩, hpre⟩
        cases pre with
        | nil =>
          simp only [List.nil_append, List.cons.injEq] at hsplit
          rw [← hsplit.1] at hre
          simp only [hc] at hre
          cases hre
        | cons q pre =>
          simp only [List.cons_append, List.cons.injEq] at hsplit
          have := hpre q (List.mem_cons_self _ _)
          rw [← hsplit.1] at this
          exact absurd hc this
    | some re =>
      by_cases hm : R.reMatchString re (dimensionAt dimensions k) = true
      · have hloop : baseCollector.rangeBlacklist R dimensions ((k, v) :: rest) = true := by
          simp only [dimensionAt] at hm
          simp [baseCollector.rangeBlacklist, RegexpEngine.MatchString, hc, hm]
        rw [hloop]
        simp only [true_iff]
        exact ⟨[], (k, v), rest, rfl, ⟨re, hc, hm⟩, by simp⟩
      · have hloop : baseCollector.rangeBlacklist R dimensions ((k, v) :: rest)
            = baseCollector.rangeBlacklist R dimensions rest := by
          simp only [dimensionAt] at hm
          simp [baseCollector.rangeBlacklist, RegexpEngine.MatchString, hc, hm]
        rw [hloop, ih]
        constructor
        · rintro ⟨pre, p, post, hsplit, hmatch, hpre⟩
          refine ⟨(k, v) :: pre, p, post, by rw [hsplit]; rfl, hmatch, ?_⟩
          intro q hq
          rcases List.mem_cons.mp hq with hq | hq
          · rw [hq]; simp [hc]
          · exact hpre q hq
        · rintro ⟨pre, p, post, hsplit, hmatch, hpre⟩
          cases pre with
          | nil =>
            simp only [List.nil_append, List.cons.injEq] at hsplit
            obtain ⟨re1, hre1, hm1⟩ := hmatch
            rw [← hsplit.1] at hre1 hm1
            simp only [hc, Option.some.injEq] at hre1
            rw [← hre1] at hm1
            exact absurd hm1 hm
          | cons q pre =>
            simp only [List.cons_append, List.cons.injEq] at hsplit
            exact ⟨pre, p, post, hsplit.2, hmatch,
              fun q1 hq1 => hpre q1 (List.mem_cons_of_mem _ hq1)⟩

/-- The loop returns false when it reaches a pair that fails to compile before any pair has
matched. -/
theorem rangeBlacklist_error_first (R : RegexpEngine) (dimensions : List (String × String))
    (pre : List (String × String)) (p : String × String) (post : List (String × String))
    (hpre : ∀ q ∈ pre, ¬ Matches R q.2 (dimensionAt dimensions q.1))
    (herr : R.Compile p.2 = none) :
    baseCollector.rangeBlacklist R dimensions (pre ++ p :: post) = false := by
  induction pre with
  | nil =>
    obtain ⟨k, v⟩ := p
    simp only [] at herr
    simp [baseCollector.rangeBlacklist, RegexpEngine.MatchString, herr]
  | cons q pre ih =>
    obtain ⟨k, v⟩ := q
    have hq := hpre (k, v) (List.mem_cons_self _ _)
    have ih1 := ih (fun q1 hq1 => hpre q1 (List.mem_cons_of_mem _ hq1))
    cases hc : R.Compile v with
    | none => simp [baseCollector.rangeBlacklist, RegexpEngine.MatchString, hc]
    | some re =>
      have hm : R.reMatchString re ((dimensions.lookup k).getD "") = false := by
        cases hb : R.reMatchString re ((dimensions.lookup k).getD "") with
        | false => rfl
        | true => exact absurd ⟨re, hc, hb⟩ hq
      simp [baseCollector.rangeBlacklist, RegexpEngine.MatchString, hc, hm, ih1]

/-- C6: when every pattern of the dimension blacklist compiles, then for every order in which
the pairs are visited `ContainsBlacklistedDimension(dimensions)` is true if and only if some pair
`(key, pattern)` of the blacklist has `pattern` matching `dimensions[key]`, an absent key read as
the empty string. An empty blacklist gives false; `{"host": "db1"}` is blacklisted by
`host -> ^db` and not by `host -> ^web`. -/
theorem ContainsBlacklistedDimension_iff (R : RegexpEngine)
    (visit : List (String × String) → List (String × String)) (col : baseCollector)
    (dimensions : List (String × String))
    (hvisit : (visit col.DimensionsBlacklist).Perm col.DimensionsBlacklist)
    (hvalid : ∀ p ∈ col.DimensionsBlacklist, R.Compile p.2 ≠ none) :
    (col.ContainsBlacklistedDimension R visit dimensions = true ↔
      ∃ p ∈ col.DimensionsBlacklist, Matches R p.2 (dimensionAt dimensions p.1)) ∧
    (col.DimensionsBlacklist = [] → col.ContainsBlacklistedDimension R visit dimensions = false) ∧
    (∀ visit1 : List (String × String) → List (String × String),
      (visit1 [("host", "^db")]).Perm [("host", "^db")] →
      (withDimensionsBlacklist [("host", "^db")]).ContainsBlacklistedDimension literalEngine
        visit1 [("host", "db1")] = true) ∧
    (∀ visit1 : List (String × String) → List (String × String),
      (visit1 [("host", "^web")]).Perm [("host", "^web")] →
      (withDimensionsBlacklist [("host", "^web")]).ContainsBlacklistedDimension literalEngine
        visit1 [("host", "db1")] = false) := by
  refine ⟨?_, ?_, ?_, ?_⟩
  · unfold baseCollector.ContainsBlacklistedDimension
    rw [rangeBlacklist_eq_true_iff]
    constructor
    · rintro ⟨pre, p, post, hsplit, hmatch, -⟩
      refine ⟨p, hvisit.mem_iff.mp ?_, hmatch⟩
      rw [hsplit]; simp
    · rintro ⟨p, hp, hmatch⟩
      obtain ⟨pre, post, hsplit⟩ := List.append_of_mem (hvisit.mem_iff.mpr hp)
      refine ⟨pre, p, post, hsplit, hmatch, ?_⟩
      intro q hq
      apply hvalid q
      apply hvisit.mem_iff.mp
      rw [hsplit]
      exact List.mem_append_left _ hq
  · intro hnil
    unfold baseCollector.ContainsBlacklistedDimension
    rw [hnil] at hvisit ⊢
    rw [List.perm_nil.mp hvisit]
    rfl
  · intro visit1 h1
    have h2 : visit1 [("host", "^db")] = [("host", "^db")] := List.perm_singleton.mp h1
    unfold baseCollector.ContainsBlacklistedDimension
    change baseCollector.rangeBlacklist literalEngine [("host", "db1")]
      (visit1 [("host", "^db")]) = true
    rw [h2]
    decide
  · intro visit1 h1
    have h2 : visit1 [("host", "^web")] = [("host", "^web")] := List.perm_singleton.mp h1
    unfold baseCollector.ContainsBlacklistedDimension
    change baseCollector.rangeBlacklist literalEngine [("host", "db1")]
      (visit1 [("host", "^web")]) = false
    rw [h2]
    decide

/-- C6, at the blacklist `host -> ^web, dc -> east` visited in reverse and the dimensions
`host = db1, dc = us-east-1`. -/
theorem ContainsBlacklistedDimension_iff_witness :
    (withDimensionsBlacklist [("host", "^web"), ("dc", "east")]).ContainsBlacklistedDimension
        literalEngine List.reverse [("host", "db1"), ("dc", "us-east-1")] = true ↔
      ∃ p ∈ (withDimensionsBlacklist [("host", "^web"), ("dc", "east")]).DimensionsBlacklist,
        Matches literalEngine p.2 (dimensionAt [("host", "db1"), ("dc", "us-east-1")] p.1) :=
  (ContainsBlacklistedDimension_iff literalEngine List.reverse
    (withDimensionsBlacklist [("host", "^web"), ("dc", "east")])
    [("host", "db1"), ("dc", "us-east-1")] (List.reverse_perm _)
    (by
      intro p hp
      have hp1 : p = ("host", "^web") ∨ p = ("dc", "east") := by
        simpa [withDimensionsBlacklist, baseCollector.DimensionsBlacklist,
          baseCollector.SetDimensionsBlacklist] using hp
      rcases hp1 with h | h
      · rw [h, show literalEngine.Compile ("host", "^web").2 = some (true, ['w', 'e', 'b'])
          from rfl]
        exact Option.some_ne_none _
      · rw [h, show literalEngine.Compile ("dc", "east").2 = some (false, ['e', 'a', 's', 't'])
          from rfl]
        exact Option.some_ne_none _)).1

/-- C7: fail-open. For every order in which the pairs of the dimension blacklist are visited: if
the visit reaches a pattern that fails to compile before any visited pattern has matched, the
result is false whatever comes later; and the result is true if and only if some visited pair
matches and no pair visited before it fails to compile. So the blacklist `host -> (` followed by
`host -> ^db` gives false on `host = db1`, although `^db` matches `db1`. -/
theorem ContainsBlacklistedDimension_fail_open (R : RegexpEngine)
    (visit : List (String × String) → List (String × String)) (col : baseCollector)
    (dimensions : List (String × String)) :
    (∀ pre p post, visit col.DimensionsBlacklist = pre ++ p :: post →
      (∀ q ∈ pre, ¬ Matches R q.2 (dimensionAt dimensions q.1)) →
      R.Compile p.2 = none →
      col.ContainsBlacklistedDimension R visit dimensions = false) ∧
    (col.ContainsBlacklistedDimension R visit dimensions = true ↔
      ∃ pre p post, visit col.DimensionsBlacklist = pre ++ p :: post ∧
        Matches R p.2 (dimensionAt dimensions p.1) ∧ ∀ q ∈ pre, R.Compile q.2 ≠ none) ∧
    ((withDimensionsBlacklist [("host", "("), ("dc", "^db")]).ContainsBlacklistedDimension
        literalEngine id [("host", "db1"), ("dc", "db1")] = false ∧
      Matches literalEngine "^db" (dimensionAt [("host", "db1"), ("dc", "db1")] "dc")) := by
  refine ⟨?_, ?_, ?_, ?_⟩
  · intro pre p post hsplit hpre herr
    unfold baseCollector.ContainsBlacklistedDimension
    rw [hsplit]
    exact rangeBlacklist_error_first R dimensions pre p post hpre herr
  · unfold baseCollector.ContainsBlacklistedDimension
    exact rangeBlacklist_eq_true_iff R dimensions _
  · decide
  · exact ⟨(true, ['d', 'b']), rfl, rfl⟩

/-! ## The lookup key of `New` and other whitespace -/

theorem leadingToken_append_char (T S : String) (c : Char) (hT : ' ' ∉ T.data)
    (hc : c ≠ ' ') :
    leadingToken (T ++ String.singleton c ++ S) = T ++ String.singleton c ++ leadingToken S := by
  have h1 : (T ++ String.singleton c ++ S).data = T.data ++ c :: S.data := by
    simp [String.data_append, String.singleton]
  have h2 : (T.data ++ c :: S.data).takeWhile (fun x => decide (x ≠ ' '))
      = T.data ++ c :: S.data.takeWhile (fun x => decide (x ≠ ' ')) := by
    rw [List.takeWhile_append_of_pos]
    · simp [List.takeWhile_cons, hc]
    · intro x hx
      have : x ≠ ' ' := fun h => hT (h ▸ hx)
      simpa using this
  apply String.ext
  simp only [leadingToken, h1, String.data_append, String.singleton]
  simpa using h2

theorem append_char_ne_self (T X : String) (c : Char) : T ++ String.singleton c ++ X ≠ T := by
  intro h
  have h1 := congrArg (fun s => s.data.length) h
  simp [String.data_append, String.singleton] at h1

/-- C11 as stated fails: with `Test` registered, `New("Test one")` gets the collector of the
factory of `Test`, but `New("Test\tone")`, with a tab for the space, looks the whole string up and
returns nil. -/
theorem New_tab_counterexample :
    (∃ c : Collector Unit,
      New (RegisterCollector none "Test" testFactory) 7 "Test one" 0 = (.ok (some c), 1)) ∧
    leadingToken "Test\tone" = "Test\tone" ∧
    New (RegisterCollector none "Test" testFactory) 7 "Test\tone" 0 = (.ok none, 0) :=
  ⟨⟨_, rfl⟩, by decide, rfl⟩

/-- C11, amended: the lookup key of `New` is the part of the requested name before its first
space character. A type name `T` (no space in it) followed by a tab, or by any character `c`
that is not a space, and by `S` has the key `T + c + (S up to its first space)`, which is not `T`:
`New` returns nil when that key is not registered, and when it is, the collector of the factory
under that key, with the full string as canonical name. -/
theorem New_key_until_first_space {σ ω : Type} (reg : Registry σ ω) (channel : Chan)
    (T S : String) (c : Char) (w : ω) (hT : ' ' ∉ T.data) (hc : c ≠ ' ') :
    leadingToken (T ++ String.singleton c ++ S) = T ++ String.singleton c ++ leadingToken S ∧
    T ++ String.singleton c ++ leadingToken S ≠ T ∧
    (reg.get (T ++ String.singleton c ++ leadingToken S) = none →
      New reg channel (T ++ String.singleton c ++ S) w = (.ok none, w)) ∧
    (∀ (f : Factory σ ω) (col : Collector σ) (w1 : ω),
      reg.get (T ++ String.singleton c ++ leadingToken S) = some f →
      f channel 10 (defaultLog.WithFields [("collector", T ++ String.singleton c ++ S)]) w
        = (some col, w1) →
      ∃ c1 : Collector σ,
        New reg channel (T ++ String.singleton c ++ S) w = (.ok (some c1), w1) ∧
        c1.concrete = col.concrete ∧
        c1.base.CanonicalName = T ++ String.singleton c ++ S) := by
  have hkey := leadingToken_append_char T S c hT hc
  refine ⟨hkey, append_char_ne_self T _ c, ?_, ?_⟩
  · intro hnone
    rw [New_eq, hkey, hnone]
  · intro f col w1 hsome hf
    refine ⟨{ col with base := { col.base with
        collectorType := if col.base.collectorType = "" then "collector"
          else col.base.collectorType
        canonicalName := T ++ String.singleton c ++ S } }, ?_, rfl, rfl⟩
    rw [New_eq, hkey, hsome]
    simp only [hf]

/-- C11 amended, at the registry with only `Test` and the name `Test`, tab, `one two`. -/
theorem New_key_until_first_space_witness :
    leadingToken ("Test" ++ String.singleton '\t' ++ "one two")
      = "Test" ++ String.singleton '\t' ++ leadingToken "one two" ∧
    New (RegisterCollector none "Test" testFactory) 7
      ("Test" ++ String.singleton '\t' ++ "one two") 0 = (.ok none, 0) :=
  ⟨(New_key_until_first_space (RegisterCollector none "Test" testFactory) 7 "Test" "one two"
      '\t' 0 (by decide) (by decide)).1,
    (New_key_until_first_space (RegisterCollector none "Test" testFactory) 7 "Test" "one two"
      '\t' 0 (by decide) (by decide)).2.2.1 rfl⟩

/-! ## `RegisterCollector` -/

theorem lookup_filter_ne {β : Type} (l : List (String × β)) (m n : String) (h : m ≠ n) :
    (l.filter (fun p => p.1 ≠ n)).lookup m = l.lookup m := by
  have hmn : (m == n) = false := beq_false_of_ne h
  induction l with
  | nil => rfl
  | cons p l ih =>
    obtain ⟨k, v⟩ := p
    simp only [ne_eq, decide_not] at ih ⊢
    by_cases hk : k = n
    · subst hk
      simp [List.filter_cons, List.lookup_cons, hmn, ih]
    · by_cases hmk : m = k
      · simp [List.filter_cons, hk, List.lookup_cons, hmk]
      · have hmk1 : (m == k) = false := beq_false_of_ne hmk
        simp [List.filter_cons, hk, List.lookup_cons, hmk1, ih]

theorem get_RegisterCollector_self {σ ω : Type} (reg : Registry σ ω) (n : String)
    (f : Factory σ ω) : (RegisterCollector reg n f).get n = some f := by
  simp [RegisterCollector, Registry.get, List.lookup_cons]

theorem get_RegisterCollector_other {σ ω : Type} (reg : Registry σ ω) (m n : String)
    (f : Factory σ ω) (h : m ≠ n) : (RegisterCollector reg n f).get m = reg.get m := by
  have hmn : (m == n) = false := beq_false_of_ne h
  cases reg with
  | none => simp [RegisterCollector, Registry.get, List.lookup_cons, hmn]
  | some l =>
    simp only [RegisterCollector, Registry.get, List.lookup_cons, hmn]
    exact lookup_filter_ne l m n h

/-- The result of `New` depends on the registry only through the entry of the leading token. -/
theorem New_congr {σ ω : Type} (reg1 reg2 : Registry σ ω) (channel : Chan) (name : String)
    (w : ω) (h : reg1.get (leadingToken name) = reg2.get (leadingToken name)) :
    New reg1 channel name w = New reg2 channel name w := by
  rw [New_eq, New_eq, h]

theorem leadingToken_self (n : String) (h : ' ' ∉ n.data) : leadingToken n = n := by
  apply String.ext
  simp only [leadingToken]
  rw [List.takeWhile_eq_self_iff]
  intro x hx
  have : x ≠ ' ' := fun hc => h (hc ▸ hx)
  simpa using this

/-- C12 as stated fails: `Test one` is another name than `Test`, yet registering `Test` changes
what `New("Test one")` resolves to, from nothing to the factory of `Test`; and after two
registrations under `Two words`, `New("Two words")` looks `Two` up and constructs nothing. -/
theorem RegisterCollector_counterexample :
    "Test one" ≠ "Test" ∧
    New (none : Registry Unit Nat) 7 "Test one" 0 = (.ok none, 0) ∧
    (∃ c : Collector Unit,
      New (RegisterCollector none "Test" testFactory) 7 "Test one" 0 = (.ok (some c), 1)) ∧
    New (RegisterCollector (RegisterCollector none "Two words" testFactory) "Two words"
      listenerFactory) 7 "Two words" 0 = (.ok none, 0) :=
  ⟨by decide, rfl, ⟨_, rfl⟩, rfl⟩

/-- C12, amended: `RegisterCollector` is last-writer-wins and touches no other entry. After
`RegisterCollector(n, f1)` and `RegisterCollector(n, f2)` the entry of `n` is `f2`, and every
`New(name)` whose leading token is `n` (so `New(n)` when `n` has no space) does what it does in
the registry that holds `f2` alone, without `f1`. For every key `m != n` the entry is the same
before and after registering `n`, and so is `New(name)` for every name whose leading token is not
`n`. The first registration on the nil registry succeeds. -/
theorem RegisterCollector_last_writer_wins {σ ω : Type} (reg : Registry σ ω) (n : String)
    (f1 f2 : Factory σ ω) (channel : Chan) (name : String) (w : ω) :
    (RegisterCollector (RegisterCollector reg n f1) n f2).get n = some f2 ∧
    (leadingToken name = n →
      New (RegisterCollector (RegisterCollector reg n f1) n f2) channel name w
        = New (some [(n, f2)]) channel name w) ∧
    (' ' ∉ n.data → leadingToken n = n) ∧
    (∀ m, m ≠ n → (RegisterCollector reg n f2).get m = reg.get m) ∧
    (leadingToken name ≠ n →
      New (RegisterCollector reg n f2) channel name w = New reg channel name w) ∧
    (RegisterCollector (none : Registry σ ω) n f1).get n = some f1 := by
  refine ⟨get_RegisterCollector_self _ n f2, ?_, leadingToken_self n,
    fun m hm => get_RegisterCollector_other reg m n f2 hm, ?_,
    get_RegisterCollector_self _ n f1⟩
  · intro hname
    apply New_congr
    rw [hname, get_RegisterCollector_self]
    simp [Registry.get, List.lookup_cons]
  · intro hname
    apply New_congr
    exact get_RegisterCollector_other reg _ n f2 hname

/-- C12 amended, at `Test` registered with `testFactory` and then with `listenerFactory`:
`New("Test a")` gets the collector of `listenerFactory`. -/
theorem RegisterCollector_last_writer_wins_witness :
    New (RegisterCollector (RegisterCollector none "Test" testFactory) "Test" listenerFactory)
      7 "Test a" 0 = New (some [("Test", listenerFactory)]) 7 "Test a" 0 ∧
    ∃ c : Collector Unit, New (some [("Test", listenerFactory)]) 7 "Test a" 0
      = (.ok (some c), 1) ∧ c.base.CollectorType = "listener" :=
  ⟨(RegisterCollector_last_writer_wins none "Test" testFactory listenerFactory 7 "Test a"
      0).2.1 (by decide), ⟨_, rfl, rfl⟩⟩

/-! ## `GetAsInt` on numbers and on unsupported shapes -/

theorem truncTowardZero_intCast (z : Int) : truncTowardZero (z : ℚ) = z := by
  unfold truncTowardZero
  split <;> simp

theorem truncTowardZero_div (m : Int) (k : Nat) :
    truncTowardZero ((m : ℚ) / ((2 ^ k : Nat) : ℚ)) = Int.tdiv m (2 ^ k) := by
  have hpos : (0 : ℚ) < ((2 ^ k : Nat) : ℚ) := by positivity
  unfold truncTowardZero
  by_cases hm : 0 ≤ m
  · have hq : (0 : ℚ) ≤ (m : ℚ) / ((2 ^ k : Nat) : ℚ) :=
      div_nonneg (by exact_mod_cast hm) hpos.le
    rw [if_pos hq, Rat.floor_intCast_div_natCast, Int.tdiv_eq_ediv hm (by positivity)]
    push_cast
    rfl
  · have hm1 : m < 0 := not_le.mp hm
    have hq : ¬ (0 : ℚ) ≤ (m : ℚ) / ((2 ^ k : Nat) : ℚ) := by
      rw [not_le]
      exact div_neg_of_neg_of_pos (by exact_mod_cast hm1) hpos
    rw [if_neg hq]
    have h1 : (m : ℚ) / ((2 ^ k : Nat) : ℚ) = -(((-m : Int) : ℚ) / ((2 ^ k : Nat) : ℚ)) := by
      push_cast; ring
    rw [h1, Int.ceil_neg, Rat.floor_intCast_div_natCast]
    have h2 : m = -(-m) := by omega
    conv_rhs => rw [h2, Int.neg_tdiv, Int.tdiv_eq_ediv (by omega) (by positivity)]
    push_cast
    rfl

/-- The integer arithmetic of the conversion computes the truncation toward zero of the value
of the float. -/
theorem truncFinite_eq (mant exp : Int) :
    config.truncFinite mant exp = truncTowardZero (float64Value mant exp) := by
  unfold config.truncFinite float64Value
  by_cases he : 0 ≤ exp
  · rw [if_pos he]
    obtain ⟨k, rfl⟩ := Int.eq_ofNat_of_zero_le he
    have : (mant : ℚ) * (2 : ℚ) ^ (k : Int) = ((mant * 2 ^ k : Int) : ℚ) := by
      push_cast; rw [zpow_natCast]
    rw [this, truncTowardZero_intCast]
    simp
  · rw [if_neg he]
    obtain ⟨k, hk⟩ : ∃ k : Nat, exp = -(k : Int) := ⟨(-exp).toNat, by omega⟩
    subst hk
    have : (mant : ℚ) * (2 : ℚ) ^ (-(k : Int)) = (mant : ℚ) / ((2 ^ k : Nat) : ℚ) := by
      rw [zpow_neg, zpow_natCast]; push_cast; rfl
    rw [this, truncTowardZero_div]
    simp

/-- C13 as stated fails: the `float32` value 2.5, finite and in the integer range, is not
converted; `GetAsInt` returns the default 7, not the truncation 2. -/
theorem GetAsInt_float32_counterexample :
    truncTowardZero (float64Value 5 (-1)) = 2 ∧
    config.GetAsInt outOfRangeZero (.float32 (.finite 5 (-1))) 7 = 7 :=
  ⟨(truncFinite_eq 5 (-1)).symm.trans (by decide), by decide⟩

/-- C13, amended: for every `float64` value `f`, finite and with its truncation in the 64-bit
integer range, and every default `d`, `GetAsInt(f, d)` is `f` truncated toward zero, whatever
`d` is: `GetAsInt(3.9, 7) = 3`, `GetAsInt(-3.9, 7) = -3`, `GetAsInt(0.99, 7) = 0`. A `float32`
value gives the default. -/
theorem GetAsInt_float64_trunc (outOfRange : Float64 → Int) (mant exp d : Int)
    (hrange : -(2 ^ 63 : Int) ≤ truncTowardZero (float64Value mant exp) ∧
      truncTowardZero (float64Value mant exp) < 2 ^ 63) :
    config.GetAsInt outOfRange (.float64 (.finite mant exp)) d
      = truncTowardZero (float64Value mant exp) ∧
    config.GetAsInt outOfRange (.float64 (.finite 8782019273372467 (-51))) 7 = 3 ∧
    config.GetAsInt outOfRange (.float64 (.finite (-8782019273372467) (-51))) 7 = -3 ∧
    config.GetAsInt outOfRange (.float64 (.finite 8917127262193582 (-53))) 7 = 0 ∧
    (∀ f, config.GetAsInt outOfRange (.float32 f) d = d) := by
  refine ⟨?_, rfl, rfl, rfl, fun _ => rfl⟩
  rw [← truncFinite_eq] at hrange ⊢
  simp only [config.GetAsInt, config.float64ToInt]
  rw [if_pos hrange]

/-- C13 amended, at the `float64` value 3.9, which is `8782019273372467 * 2^-51`. -/
theorem GetAsInt_float64_trunc_witness :
    config.GetAsInt outOfRangeZero (.float64 (.finite 8782019273372467 (-51))) 7
      = truncTowardZero (float64Value 8782019273372467 (-51)) :=
  (GetAsInt_float64_trunc outOfRangeZero 8782019273372467 (-51) 7
    (by rw [← truncFinite_eq]; decide)).1

/-- C14 as stated fails: the values 5 of the types `int8`, `int16`, `uint`, `uint8`, `uint16`,
`uint32` and `uint64` do not pass through; `GetAsInt` returns the default 7. -/
theorem GetAsInt_other_widths_counterexample :
    config.GetAsInt outOfRangeZero (.int8 5) 7 = 7 ∧
    config.GetAsInt outOfRangeZero (.int16 5) 7 = 7 ∧
    config.GetAsInt outOfRangeZero (.uint 5) 7 = 7 ∧
    config.GetAsInt outOfRangeZero (.uint8 5) 7 = 7 ∧
    config.GetAsInt outOfRangeZero (.uint16 5) 7 = 7 ∧
    config.GetAsInt outOfRangeZero (.uint32 5) 7 = 7 ∧
    config.GetAsInt outOfRangeZero (.uint64 5) 7 = 7 := by
  decide

/-- C14, amended: for every value `v` of the types `int`, `int32` and `int64` and every default
`d`, `GetAsInt(v, d)` returns `v` unchanged; a value of another native integer type (`int8`,
`int16`, `uint`, `uint8`, `uint16`, `uint32`, `uint64`) gives `d`. -/
theorem GetAsInt_native_int (outOfRange : Float64 → Int) (n : Int) (m : Nat) (d : Int) :
    config.GetAsInt outOfRange (.int n) d = n ∧
    config.GetAsInt outOfRange (.int32 n) d = n ∧
    config.GetAsInt outOfRange (.int64 n) d = n ∧
    config.GetAsInt outOfRange (.int8 n) d = d ∧
    config.GetAsInt outOfRange (.int16 n) d = d ∧
    config.GetAsInt outOfRange (.uint m) d = d ∧
    config.GetAsInt outOfRange (.uint8 m) d = d ∧
    config.GetAsInt outOfRange (.uint16 m) d = d ∧
    config.GetAsInt outOfRange (.uint32 m) d = d ∧
    config.GetAsInt outOfRange (.uint64 m) d = d :=
  ⟨rfl, rfl, rfl, rfl, rfl, rfl, rfl, rfl, rfl, rfl⟩

/-- C15: for every value that is neither a string, an integer nor a float (nil, a boolean, a
sequence, a mapping) and every default `d`, `GetAsInt(value, d) = d`. `GetAsInt` has a result on
every input: the default, unless the value is a string that parses, an `int`, an `int32`, an
`int64` or a `float64`. -/
theorem GetAsInt_unsupported (outOfRange : Float64 → Int) (v : Value) (d : Int)
    (h : isUnsupportedShape v = true) :
    config.GetAsInt outOfRange v d = d ∧
    (∀ v1 : Value, config.GetAsInt outOfRange v1 d = d ∨ coercionFails v1 = false) := by
  constructor
  · cases v <;> first | rfl | cases h
  · intro v1
    cases hc : coercionFails v1 with
    | false => exact Or.inr rfl
    | true => exact Or.inl (GetAsInt_of_coercionFails outOfRange v1 d hc)

/-- C15, at the value nil and the default 7. -/
theorem GetAsInt_unsupported_witness :
    config.GetAsInt outOfRangeZero .nil 7 = 7 :=
  (GetAsInt_unsupported outOfRangeZero .nil 7 rfl).1

/-! ## `GetAsFloat` -/

/-- C16 as stated fails: the `float32` value 2.5 is a native float, but `GetAsFloat` does not
return it; it returns the default 1.0. -/
theorem GetAsFloat_float32_counterexample :
    config.GetAsFloat decimalParseFloat (.float32 (.finite 5 (-1))) (.finite 1 0)
      = .finite 1 0 ∧
    Float64.finite 1 0 ≠ Float64.finite 5 (-1) := by
  decide

/-- C16, amended: for every default `d`, `GetAsFloat(v, d) = v` when `v` is a `float64`;
`GetAsFloat(s, d)` is the parsed value when `strconv.ParseFloat` accepts the string `s` and `d`
when it reports an error (`GetAsFloat("3.14", 1.0) = 3.14`, `GetAsFloat("bad", 1.0) = 1.0`); and
for every other shape, including `float32`, the native integers, booleans and nil, `GetAsFloat`
returns `d`. It has a result on every input. -/
theorem GetAsFloat_shapes (ParseFloat : String → Except strconv.NumError Float64)
    (d : Float64) :
    (∀ f, config.GetAsFloat ParseFloat (.float64 f) d = f) ∧
    (∀ s x, ParseFloat s = .ok x → config.GetAsFloat ParseFloat (.str s) d = x) ∧
    (∀ s e, ParseFloat s = .error e → config.GetAsFloat ParseFloat (.str s) d = d) ∧
    (∀ v, (∀ s, v ≠ .str s) → (∀ f, v ≠ .float64 f) → config.GetAsFloat ParseFloat v d = d) ∧
    (∀ f, config.GetAsFloat ParseFloat (.float32 f) d = d) ∧
    (∀ n, config.GetAsFloat ParseFloat (.int n) d = d) ∧
    (∀ b, config.GetAsFloat ParseFloat (.bool b) d = d) ∧
    config.GetAsFloat ParseFloat .nil d = d ∧
    config.GetAsFloat decimalParseFloat (.str "3.14") (.finite 1 0)
      = .finite 7070651414971679 (-51) ∧
    config.GetAsFloat decimalParseFloat (.str "bad") (.finite 1 0) = .finite 1 0 := by
  refine ⟨fun _ => rfl, ?_, ?_, ?_, fun _ => rfl, fun _ => rfl, fun _ => rfl, rfl, by decide,
    by decide⟩
  · intro s x h
    simp only [config.GetAsFloat, h]
  · intro s e h
    simp only [config.GetAsFloat, h]
  · intro v hs hf
    cases v <;> first | rfl | exact absurd rfl (hs _) | exact absurd rfl (hf _)

/-! ## The prefix in `configureCommonParams` -/

/-- C17: with the key `prefix` in the map holding `v`, the prefix after `configureCommonParams`
is `v` when `v` is a string, the empty string too, and the prior prefix when `v` is of any other
type. -/
theorem configure_prefix_value (outOfRange : Float64 → Int) (col : baseCollector)
    (configMap : List (String × Value)) (v : Value)
    (h : configMap.lookup "prefix" = some v) :
    (∀ s, v = .str s →
      (baseCollector.configureCommonParams outOfRange col configMap).Prefix = s) ∧
    ((∀ s, v ≠ .str s) →
      (baseCollector.configureCommonParams outOfRange col configMap).Prefix = col.Prefix) := by
  rw [configure_eq]
  simp only [baseCollector.Prefix, h]
  constructor
  · intro s hs
    rw [hs]
  · intro hs
    cases v <;> first | rfl | exact absurd rfl (hs _)

/-- C17, at the prior prefix `pre`: the empty string replaces it, the number 3 does not. -/
theorem configure_prefix_value_witness :
    (baseCollector.configureCommonParams outOfRangeZero sampleBase
      [("prefix", .str "")]).Prefix = "" ∧
    (baseCollector.configureCommonParams outOfRangeZero sampleBase
      [("prefix", .int 3)]).Prefix = "pre" :=
  ⟨(configure_prefix_value outOfRangeZero sampleBase [("prefix", .str "")] (.str "") rfl).1 "" rfl,
    (configure_prefix_value outOfRangeZero sampleBase [("prefix", .int 3)] (.int 3) rfl).2
      (fun _ h => by cases h)⟩

/-! ## `buildResponse` -/

theorem lookup_mapSet {β : Type} (m : List (String × β)) (k k1 : String) (v : β) :
    (internalserver.mapSet m k v).lookup k1 = if k1 = k then some v else m.lookup k1 := by
  by_cases h : k1 = k
  · subst h
    simp [internalserver.mapSet, List.lookup_cons]
  · have hb : (k1 == k) = false := beq_false_of_ne h
    simp only [internalserver.mapSet, List.lookup_cons, hb, if_neg h]
    exact lookup_filter_ne m k1 k h

theorem keys_mapSet {β : Type} (m : List (String × β)) (k k1 : String) (v : β) :
    k1 ∈ (internalserver.mapSet m k v).map Prod.fst ↔ k1 = k ∨ k1 ∈ m.map Prod.fst := by
  simp only [internalserver.mapSet, List.map_cons, List.mem_cons, List.mem_map,
    List.mem_filter]
  constructor
  · rintro (h | ⟨p, ⟨hp, -⟩, hk⟩)
    · exact Or.inl h
    · exact Or.inr ⟨p, hp, hk⟩
  · rintro (h | ⟨p, hp, hk⟩)
    · exact Or.inl h
    · by_cases hkk : k1 = k
      · exact Or.inl hkk
      · refine Or.inr ⟨p, ⟨hp, ?_⟩, hk⟩
        have : p.1 ≠ k := by rw [hk]; exact hkk
        simpa using this

theorem nodup_keys_mapSet {β : Type} (m : List (String × β)) (k : String) (v : β)
    (h : (m.map Prod.fst).Nodup) : ((internalserver.mapSet m k v).map Prod.fst).Nodup := by
  simp only [internalserver.mapSet, List.map_cons, List.nodup_cons]
  constructor
  · simp only [List.mem_map, List.mem_filter, not_exists, not_and]
    rintro p ⟨-, hp⟩ hk
    have : p.1 ≠ k := by simpa using hp
    exact this hk
  · exact h.sublist ((List.filter_sublist m).map Prod.fst)

theorem handlerStats_append (hs : List handler.Handler) (h : handler.Handler) :
    internalserver.handlerStats (hs ++ [h])
      = internalserver.mapSet (internalserver.handlerStats hs) h.Name h.InternalMetrics := by
  simp [internalserver.handlerStats, List.foldl_append]

theorem lastWithName_append (hs : List handler.Handler) (h : handler.Handler) (k : String) :
    lastWithName (hs ++ [h]) k = if h.Name = k then some h else lastWithName hs k := by
  simp only [lastWithName, List.reverse_append, List.reverse_cons, List.reverse_nil,
    List.nil_append, List.singleton_append, List.find?_cons]
  by_cases hk : h.Name = k <;> simp [hk]

theorem handlerStats_lookup (hs : List handler.Handler) (k : String) :
    (internalserver.handlerStats hs).lookup k
      = (lastWithName hs k).map (fun h => h.InternalMetrics) := by
  induction hs using List.reverseRecOn with
  | nil => rfl
  | append_singleton hs h ih =>
    rw [handlerStats_append, lookup_mapSet, lastWithName_append]
    by_cases hk : k = h.Name
    · rw [if_pos hk, if_pos hk.symm]; rfl
    · rw [if_neg hk, if_neg (fun hh => hk hh.symm), ih]

theorem handlerStats_keys (hs : List handler.Handler) (k : String) :
    k ∈ (internalserver.handlerStats hs).map Prod.fst ↔ k ∈ hs.map (fun h => h.Name) := by
  induction hs using List.reverseRecOn with
  | nil => simp [internalserver.handlerStats]
  | append_singleton hs h ih =>
    rw [handlerStats_append, keys_mapSet, ih]
    simp only [List.map_append, List.map_cons, List.map_nil, List.mem_append,
      List.mem_singleton]
    exact Or.comm

theorem handlerStats_nodup (hs : List handler.Handler) :
    ((internalserver.handlerStats hs).map Prod.fst).Nodup := by
  induction hs using List.reverseRecOn with
  | nil => simp [internalserver.handlerStats]
  | append_singleton hs h ih =>
    rw [handlerStats_append]
    exact nodup_keys_mapSet _ _ _ ih

/-- C18: the snapshot that `buildResponse` assembles has a `Handlers` mapping whose keys are
exactly the `Name()` values of the handlers, each once; the entry of a name holds the
`InternalMetrics` of the last handler of that name in registration order, whatever the metrics
are, empty counters and gauges too; an empty handler list gives an empty mapping. -/
theorem buildResponse_handlers (memoryStats : handler.InternalMetrics)
    (handlers : List handler.Handler) :
    (∀ k, k ∈ (internalserver.buildResponse memoryStats handlers).Handlers.map Prod.fst ↔
      k ∈ handlers.map (fun h => h.Name)) ∧
    ((internalserver.buildResponse memoryStats handlers).Handlers.map Prod.fst).Nodup ∧
    (∀ k, (internalserver.buildResponse memoryStats handlers).Handlers.lookup k
      = (lastWithName handlers k).map (fun h => h.InternalMetrics)) ∧
    (∀ h ∈ handlers, ∃ h1 ∈ handlers, h1.Name = h.Name ∧
      (internalserver.buildResponse memoryStats handlers).Handlers.lookup h.Name
        = some h1.InternalMetrics) ∧
    (internalserver.buildResponse memoryStats []).Handlers = [] ∧
    (internalserver.buildResponse memoryStats [⟨"graphite", ⟨[], []⟩⟩]).Handlers
      = [("graphite", ⟨[], []⟩)] ∧
    (internalserver.buildResponse memoryStats handlers).Memory = memoryStats := by
  refine ⟨handlerStats_keys handlers, handlerStats_nodup handlers,
    handlerStats_lookup handlers, ?_, rfl, rfl, rfl⟩
  intro h hh
  have hlook := handlerStats_lookup handlers h.Name
  cases hlast : lastWithName handlers h.Name with
  | none =>
    have hnone : List.find? (fun x => decide (x.Name = h.Name)) handlers.reverse = none := hlast
    rw [List.find?_eq_none] at hnone
    exact absurd (by simp) (hnone h (List.mem_reverse.mpr hh))
  | some h1 =>
    have hsome : List.find? (fun x => decide (x.Name = h.Name)) handlers.reverse = some h1 :=
      hlast
    refine ⟨h1, List.mem_reverse.mp (List.mem_of_find?_eq_some hsome), ?_, ?_⟩
    · simpa using List.find?_some hsome
    · change (internalserver.handlerStats handlers).lookup h.Name = _
      rw [hlook, hlast]; rfl

/-! ## The canonical name after construction -/

theorem apply_canonicalName (outOfRange : Float64 → Int) (col : baseCollector) (op : BaseOp)
    (h : op.isSetCanonicalName = false) :
    (op.apply outOfRange col).canonicalName = col.canonicalName := by
  cases op with
  | configureCommonParams configMap =>
    simp only [BaseOp.apply]
    rw [configure_eq]
  | SetCanonicalName name => cases h
  | SetInterval _ => rfl
  | SetPrefix _ => rfl
  | SetCollectorType _ => rfl
  | SetBlacklist _ => rfl
  | SetDimensionsBlacklist _ => rfl

theorem runOps_canonicalName (outOfRange : Float64 → Int) (col : baseCollector)
    (ops : List BaseOp) (h : ∀ op ∈ ops, op.isSetCanonicalName = false) :
    (runOps outOfRange col ops).canonicalName = col.canonicalName := by
  induction ops generalizing col with
  | nil => rfl
  | cons op ops ih =>
    have h1 := ih (op.apply outOfRange col) (fun o ho => h o (List.mem_cons_of_mem _ ho))
    have h2 := apply_canonicalName outOfRange col op (h op (List.mem_cons_self _ _))
    simp only [runOps, List.foldl_cons] at h1 ⊢
    rw [h1, h2]

theorem New_canonicalName {σ ω : Type} (reg : Registry σ ω) (channel : Chan) (name : String)
    (w w1 : ω) (c : Collector σ) (h : New reg channel name w = (.ok (some c), w1)) :
    c.base.canonicalName = name := by
  rw [New_eq] at h
  cases hget : reg.get (leadingToken name) with
  | none => simp [hget] at h
  | some f =>
    rcases hf : f channel 10 (defaultLog.WithFields [("collector", name)]) w with ⟨r, w2⟩
    cases r with
    | none => simp [hget, hf] at h
    | some c0 =>
      simp only [hget, hf, Prod.mk.injEq, Except.ok.injEq, Option.some.injEq] at h
      rw [← h.1]

/-- C19 as stated fails: `SetCanonicalName` is an operation of the collector base state, and
applied to the collector that `New("Test one")` returned it changes the canonical name to
`other`. -/
theorem canonicalName_counterexample :
    ∃ c : Collector Unit,
      New (RegisterCollector none "Test" testFactory) 7 "Test one" 0 = (.ok (some c), 1) ∧
      c.base.CanonicalName = "Test one" ∧
      (runOps outOfRangeZero c.base [.SetInterval 30, .SetCanonicalName "other"]).CanonicalName
        = "other" ∧
      "other" ≠ "Test one" :=
  ⟨_, rfl, rfl, rfl, by decide⟩

/-- C19, amended: for every collector returned by `New(name)` and every sequence of operations
of the collector base state without a call of `SetCanonicalName` (`configureCommonParams`,
`SetInterval`, `SetPrefix`, `SetCollectorType`, `SetBlacklist`, `SetDimensionsBlacklist`)
applied to it afterwards, `CanonicalName()` still equals `name`; `SetCanonicalName(x)` sets the
canonical name to `x`. -/
theorem canonicalName_stable {σ ω : Type} (reg : Registry σ ω) (channel : Chan)
    (name : String) (w w1 : ω) (c : Collector σ) (outOfRange : Float64 → Int)
    (ops : List BaseOp)
    (hnew : New reg channel name w = (.ok (some c), w1))
    (hops : ∀ op ∈ ops, op.isSetCanonicalName = false) :
    (runOps outOfRange c.base ops).CanonicalName = name ∧
    (∀ (col : baseCollector) (x : String),
      ((BaseOp.SetCanonicalName x).apply outOfRange col).CanonicalName = x) := by
  refine ⟨?_, fun _ _ => rfl⟩
  simp only [baseCollector.CanonicalName]
  rw [runOps_canonicalName outOfRange c.base ops hops]
  exact New_canonicalName reg channel name w w1 c hnew

/-- C19 amended, at the collector of `New("Test one")`, configured with every common key and
then given another interval, prefix, type and blacklists. -/
theorem canonicalName_stable_witness :
    (runOps outOfRangeZero
      (⟨7, "Test", 10, "collector", "Test one", "", [], [],
        defaultLog.WithFields [("collector", "Test one")]⟩ : baseCollector)
      [.configureCommonParams [("interval", .str "30"), ("prefix", .str "p"),
          ("metrics_blacklist", .slice [.str "a"]), ("dimensions_blacklist", .map [])],
        .SetInterval 5, .SetPrefix "q", .SetCollectorType "listener", .SetBlacklist ["b"],
        .SetDimensionsBlacklist [("host", "^db")]]).CanonicalName = "Test one" :=
  (canonicalName_stable (RegisterCollector none "Test" testFactory) 7 "Test one" 0 1
    ⟨⟨7, "Test", 10, "collector", "Test one", "", [], [],
      defaultLog.WithFields [("collector", "Test one")]⟩, ()⟩ outOfRangeZero
    [.configureCommonParams [("interval", .str "30"), ("prefix", .str "p"),
        ("metrics_blacklist", .slice [.str "a"]), ("dimensions_blacklist", .map [])],
      .SetInterval 5, .SetPrefix "q", .SetCollectorType "listener", .SetBlacklist ["b"],
      .SetDimensionsBlacklist [("host", "^db")]]
    rfl (by decide)).1

/-! ## The order of the visit in `ContainsBlacklistedDimension` -/

/-- When every visited pattern compiles, the loop returns true exactly when some visited pair
matches. -/
theorem rangeBlacklist_valid_iff (R : RegexpEngine) (dimensions : List (String × String))
    (order : List (String × String)) (hvalid : ∀ p ∈ order, R.Compile p.2 ≠ none) :
    baseCollector.rangeBlacklist R dimensions order = true ↔
      ∃ p ∈ order, Matches R p.2 (dimensionAt dimensions p.1) := by
  rw [rangeBlacklist_eq_true_iff]
  constructor
  · rintro ⟨pre, p, post, hsplit, hmatch, -⟩
    exact ⟨p, by rw [hsplit]; simp, hmatch⟩
  · rintro ⟨p, hp, hmatch⟩
    obtain ⟨pre, post, hsplit⟩ := List.append_of_mem hp
    refine ⟨pre, p, post, hsplit, hmatch, ?_⟩
    intro q hq
    apply hvalid q
    rw [hsplit]
    exact List.mem_append_left _ hq

theorem rangeBlacklist_perm (R : RegexpEngine) (dimensions : List (String × String))
    (order1 order2 : List (String × String)) (hperm : order1.Perm order2)
    (hvalid : ∀ p ∈ order1, R.Compile p.2 ≠ none) :
    baseCollector.rangeBlacklist R dimensions order1
      = baseCollector.rangeBlacklist R dimensions order2 := by
  have hvalid2 : ∀ p ∈ order2, R.Compile p.2 ≠ none :=
    fun p hp => hvalid p (hperm.mem_iff.mpr hp)
  rw [Bool.eq_iff_iff, rangeBlacklist_valid_iff R dimensions order1 hvalid,
    rangeBlacklist_valid_iff R dimensions order2 hvalid2]
  constructor
  · rintro ⟨p, hp, hm⟩; exact ⟨p, hperm.mem_iff.mp hp, hm⟩
  · rintro ⟨p, hp, hm⟩; exact ⟨p, hperm.mem_iff.mpr hp, hm⟩

theorem rangeBlacklist_no_match (R : RegexpEngine) (dimensions : List (String × String))
    (order : List (String × String))
    (hno : ∀ p ∈ order, ¬ Matches R p.2 (dimensionAt dimensions p.1)) :
    baseCollector.rangeBlacklist R dimensions order = false := by
  cases hb : baseCollector.rangeBlacklist R dimensions order with
  | false => rfl
  | true =>
    obtain ⟨pre, p, post, hsplit, hmatch, -⟩ := (rangeBlacklist_eq_true_iff R dimensions order).mp hb
    exact absurd hmatch (hno p (by rw [hsplit]; simp))

/-- C20 as stated fails: the blacklist `host -> (`, `dc -> ^db` on the dimensions
`host = db1, dc = db1` gives false when the malformed pattern `(` is visited first and true when
the matching pattern `^db` is visited first. -/
theorem ContainsBlacklistedDimension_order_counterexample :
    (withDimensionsBlacklist [("host", "("), ("dc", "^db")]).ContainsBlacklistedDimension
      literalEngine id [("host", "db1"), ("dc", "db1")] = false ∧
    (withDimensionsBlacklist [("host", "("), ("dc", "^db")]).ContainsBlacklistedDimension
      literalEngine List.reverse [("host", "db1"), ("dc", "db1")] = true ∧
    (List.reverse [("host", "("), ("dc", "^db")]).Perm (id [("host", "("), ("dc", "^db")]) :=
  ⟨by decide, by decide, List.reverse_perm _⟩

/-- C20, amended: for two orders of visiting the same pairs of the dimension blacklist,
`ContainsBlacklistedDimension` gives the same boolean when every pattern of the blacklist
compiles, and it gives false in both orders when no pair matches. With a malformed pattern
alongside a matching one the result is that of the pair visited first. -/
theorem ContainsBlacklistedDimension_order (R : RegexpEngine)
    (visit1 visit2 : List (String × String) → List (String × String)) (col : baseCollector)
    (dimensions : List (String × String))
    (h1 : (visit1 col.DimensionsBlacklist).Perm col.DimensionsBlacklist)
    (h2 : (visit2 col.DimensionsBlacklist).Perm col.DimensionsBlacklist) :
    ((∀ p ∈ col.DimensionsBlacklist, R.Compile p.2 ≠ none) →
      col.ContainsBlacklistedDimension R visit1 dimensions
        = col.ContainsBlacklistedDimension R visit2 dimensions) ∧
    ((∀ p ∈ col.DimensionsBlacklist, ¬ Matches R p.2 (dimensionAt dimensions p.1)) →
      col.ContainsBlacklistedDimension R visit1 dimensions = false ∧
      col.ContainsBlacklistedDimension R visit2 dimensions = false) := by
  constructor
  · intro hvalid
    unfold baseCollector.ContainsBlacklistedDimension
    exact rangeBlacklist_perm R dimensions _ _ (h1.trans h2.symm)
      (fun p hp => hvalid p (h1.mem_iff.mp hp))
  · intro hno
    unfold baseCollector.ContainsBlacklistedDimension
    exact ⟨rangeBlacklist_no_match R dimensions _ (fun p hp => hno p (h1.mem_iff.mp hp)),
      rangeBlacklist_no_match R dimensions _ (fun p hp => hno p (h2.mem_iff.mp hp))⟩

/-- C20 amended, at the blacklist `host -> ^web, dc -> east`, visited in the stored order and in
reverse. -/
theorem ContainsBlacklistedDimension_order_witness :
    (withDimensionsBlacklist [("host", "^web"), ("dc", "east")]).ContainsBlacklistedDimension
        literalEngine id [("host", "db1"), ("dc", "us-east-1")]
      = (withDimensionsBlacklist [("host", "^web"), ("dc", "east")]).ContainsBlacklistedDimension
        literalEngine List.reverse [("host", "db1"), ("dc", "us-east-1")] :=
  (ContainsBlacklistedDimension_order literalEngine id List.reverse
    (withDimensionsBlacklist [("host", "^web"), ("dc", "east")])
    [("host", "db1"), ("dc", "us-east-1")] (List.Perm.refl _) (List.reverse_perm _)).1
    (by
      intro p hp
      have hp1 : p = ("host", "^web") ∨ p = ("dc", "east") := by
        simpa [withDimensionsBlacklist, baseCollector.DimensionsBlacklist,
          baseCollector.SetDimensionsBlacklist] using hp
      rcases hp1 with h | h
      · rw [h, show literalEngine.Compile ("host", "^web").2 = some (true, ['w', 'e', 'b'])
          from rfl]
        exact Option.some_ne_none _
      · rw [h, show literalEngine.Compile ("dc", "east").2 = some (false, ['e', 'a', 's', 't'])
          from rfl]
        exact Option.some_ne_none _)

end fullerite
